import Mathlib

/-!
# Biquad filter core of `AudioPluginAudioProcessor`

A shallow embedding of `prepareToPlay` and `processBlock` from
`plugin/source/PluginProcessor.cpp`, with the member variables declared in
`plugin/include/YourPluginName/PluginProcessor.h`.

`float` expressions are read over exact arithmetic in an ordered field `α`
(`ℚ` for evaluation), with a division by zero made explicit: the value of a
`float` expression is a `FloatVal α`, a number, or `undef` once a division by
zero occurred in it.  `std::tan` and `M_PI` come from the C library and are
parameters `tan` and `pi` of the embedding.  This reading serves the
properties of the control flow and of the recurrence, where both sides of a
statement perform the same operations.  The stability of the stored
coefficients depends on the rounding of every operation; for it the
coefficient computation is embedded a second time in `float` arithmetic
(`roundF32`, `computeCoefficientsF32`).
-/

set_option autoImplicit false

namespace audio_plugin

/-! ## Values of `float` expressions -/

/-- Value of a `float` expression: `fin v` is the number `v`; `undef` is the
value of an expression in which a division by zero occurred.  Exact
arithmetic gives such an expression no value; IEEE-754 arithmetic goes on with
an infinity or NaN (`0.0f / 0.0f` is NaN). -/
inductive FloatVal (α : Type) where
  | fin (v : α)
  | undef
  deriving DecidableEq

namespace FloatVal

variable {α : Type}

/-- Lift a unary function on numbers, as for `std::tan`. -/
def map (f : α → α) : FloatVal α → FloatVal α
  | fin v => fin (f v)
  | undef => undef

/-- Lift a binary operation that is defined on all pairs of numbers. -/
def map₂ (f : α → α → α) : FloatVal α → FloatVal α → FloatVal α
  | fin v, fin w => fin (f v w)
  | _, _ => undef

instance [Add α] : Add (FloatVal α) := ⟨map₂ (· + ·)⟩
instance [Sub α] : Sub (FloatVal α) := ⟨map₂ (· - ·)⟩
instance [Mul α] : Mul (FloatVal α) := ⟨map₂ (· * ·)⟩
instance [Neg α] : Neg (FloatVal α) := ⟨map (fun v => -v)⟩

/-- Division: defined when both operands are numbers and the divisor is not
zero. -/
def div [Div α] [Zero α] [DecidableEq α] : FloatVal α → FloatVal α → FloatVal α
  | fin v, fin w => if w = 0 then undef else fin (v / w)
  | _, _ => undef

instance [Div α] [Zero α] [DecidableEq α] : Div (FloatVal α) := ⟨div⟩

end FloatVal

open FloatVal

variable {α : Type} [LinearOrderedField α]

/-! ## Data model -/

/-- A `float[3]` coefficient array (`filterB`, `filterA`). -/
abbrev Coeff3 (α : Type) := FloatVal α × FloatVal α × FloatVal α

/-- One `std::array<float, 2>` history entry: index 0 first. -/
abbrev Hist2 (α : Type) := FloatVal α × FloatVal α

/-- The private members of `AudioPluginAudioProcessor` (PluginProcessor.h,
lines 46-56). -/
structure AudioPluginAudioProcessor (α : Type) where
  xHistory : List (Hist2 α)
  yHistory : List (Hist2 α)
  prevCutoff : α
  prevQ : α
  prevFilterType : Int
  filterB : Coeff3 α
  filterA : Coeff3 α

/-- What `processBlock` reads from the `juce::AudioProcessor` base class and
from `apvts`: the channel counts, the sample rate and the raw values of the
three parameters. -/
structure Host (α : Type) where
  totalNumInputChannels : Nat
  totalNumOutputChannels : Nat
  sampleRate : α
  cutoffFreq : α
  Q : α
  filterType : Int

/-- A `juce::AudioBuffer<float>`: one list of samples per channel.  In a JUCE
buffer every channel has `getNumSamples()` samples; the loops below run over
the length of the row they work on, which is that number. -/
abbrev AudioBuffer (α : Type) := List (List (FloatVal α))

/-- The member initialisers of PluginProcessor.h: empty histories, the
previous-parameter sentinels and zero coefficients. -/
def construct : AudioPluginAudioProcessor α where
  xHistory := []
  yHistory := []
  prevCutoff := -1
  prevQ := -1
  prevFilterType := -1
  filterB := (fin 0, fin 0, fin 0)
  filterA := (fin 0, fin 0, fin 0)

/-- `prepareToPlay` (PluginProcessor.cpp, lines 99-110). -/
def prepareToPlay (h : Host α) (s : AudioPluginAudioProcessor α) :
    AudioPluginAudioProcessor α :=
  let numChannels := h.totalNumInputChannels
  { s with
    xHistory := List.replicate numChannels (fin 0, fin 0)
    yHistory := List.replicate numChannels (fin 0, fin 0)
    prevCutoff := -1
    prevQ := -1
    prevFilterType := -1 }

/-! ## Coefficient refresh (PluginProcessor.cpp, lines 159-187) -/

/-- The constant `epsilon = 1e-4f`. -/
def epsilon : α := 1 / 10000

/-- The condition of the `if` on line 164:
`isCutoffChanged || isQChanged || isFilterTypeChanged`. -/
def paramsChanged (h : Host α) (s : AudioPluginAudioProcessor α) : Bool :=
  let isCutoffChanged := decide (|h.cutoffFreq - s.prevCutoff| > epsilon)
  let isQChanged := decide (|h.Q - s.prevQ| > epsilon)
  let isFilterTypeChanged := decide (h.filterType ≠ s.prevFilterType)
  isCutoffChanged || isQChanged || isFilterTypeChanged

/-- Line 166: `K = std::tan(omegaC / 2.0f)` with
`omegaC = 2.0f * M_PI * cutoffFreq / sampleRate`. -/
def prewarp (tan : α → α) (pi : α) (h : Host α) : FloatVal α :=
  let omegaC := fin 2 * fin pi * fin h.cutoffFreq / fin h.sampleRate
  FloatVal.map tan (omegaC / fin 2)

/-- Lines 167-183: the two coefficient branches; with any other filter type
neither branch runs and both arrays keep their values. -/
def computeCoefficients (tan : α → α) (pi : α) (h : Host α)
    (s : AudioPluginAudioProcessor α) : Coeff3 α × Coeff3 α :=
  let K := prewarp tan pi h
  let Q := fin h.Q
  if h.filterType = 0 then
    let norm := fin 1 / (Q + K + Q * K * K)
    ((K * norm, fin 0, -K * norm),
     (fin 1, (-fin 2 * Q + fin 2 * Q * K * K) * norm, (Q - K + Q * K * K) * norm))
  else if h.filterType = 1 then
    let norm := fin 1 / (fin 1 + K / Q + K * K)
    ((K * K * norm, fin 2 * K * K * norm, K * K * norm),
     (fin 1, fin 2 * (K * K - fin 1) * norm, (fin 1 - K / Q + K * K) * norm))
  else
    (s.filterB, s.filterA)

/-- Lines 159-187: recompute the coefficients and record the parameters when
the change check fires, otherwise leave the processor as it is. -/
def refreshCoefficients (tan : α → α) (pi : α) (h : Host α)
    (s : AudioPluginAudioProcessor α) : AudioPluginAudioProcessor α :=
  if paramsChanged h s then
    let c := computeCoefficients tan pi h s
    { s with
      filterB := c.1
      filterA := c.2
      prevCutoff := h.cutoffFreq
      prevQ := h.Q
      prevFilterType := h.filterType }
  else s

/-! ## Audio processing (PluginProcessor.cpp, lines 195-234) -/

/-- A counted `for` loop `for (i = lo; i < lo + n; ++i) body(i)` over a loop
state; `none` as soon as one iteration has no defined result. -/
def forRange {σ : Type} (body : σ → Nat → Option σ) (lo : Nat) : Nat → σ → Option σ
  | 0, st => some st
  | k + 1, st => (forRange body lo k st).bind (fun st' => body st' (lo + k))

/-- Line 196: `buffer.clear(i, 0, buffer.getNumSamples())`; not defined for a
channel the buffer does not have. -/
def clearChannel (buffer : AudioBuffer α) (i : Nat) : Option (AudioBuffer α) :=
  match buffer[i]? with
  | some channelData => some (buffer.set i (List.replicate channelData.length (fin 0)))
  | none => none

/-- Lines 215-228: the sample loop of one channel, started with the history
`x1 x2 y1 y2`.  Returns the samples written to `channelData` and the final
values of `(x1, x2)` and `(y1, y2)`. -/
def sampleLoop (filterB filterA : Coeff3 α) :
    FloatVal α → FloatVal α → FloatVal α → FloatVal α → List (FloatVal α) →
      List (FloatVal α) × Hist2 α × Hist2 α
  | x1, x2, y1, y2, [] => ([], (x1, x2), (y1, y2))
  | x1, x2, y1, y2, x0 :: rest =>
    let y0 := (filterB.1 * x0 + filterB.2.1 * x1 + filterB.2.2 * x2 -
                filterA.2.1 * y1 - filterA.2.2 * y2) / filterA.1
    let r := sampleLoop filterB filterA x0 x1 y0 y1 rest
    (y0 :: r.1, r.2)

/-- What the channel loop reads and writes: both history vectors and the
buffer. -/
structure LoopState (α : Type) where
  xHistory : List (Hist2 α)
  yHistory : List (Hist2 α)
  buffer : AudioBuffer α

/-- Lines 206-233: the body of the channel loop.  Not defined when `channel`
is outside the buffer or outside a history vector. -/
def processChannel (filterB filterA : Coeff3 α) (st : LoopState α) (channel : Nat) :
    Option (LoopState α) :=
  match st.buffer[channel]?, st.xHistory[channel]?, st.yHistory[channel]? with
  | some channelData, some xh, some yh =>
    let r := sampleLoop filterB filterA xh.1 xh.2 yh.1 yh.2 channelData
    some { xHistory := st.xHistory.set channel r.2.1
           yHistory := st.yHistory.set channel r.2.2
           buffer := st.buffer.set channel r.1 }
  | _, _, _ => none

/-- Lines 205-234: the channel loop over the input channels. -/
def filterChannels (filterB filterA : Coeff3 α) (numIn : Nat) (st : LoopState α) :
    Option (LoopState α) :=
  forRange (processChannel filterB filterA) 0 numIn st

/-- Lines 195-196: clear the output channels that have no input. -/
def clearExcess (numIn numOut : Nat) (buffer : AudioBuffer α) : Option (AudioBuffer α) :=
  forRange clearChannel numIn (numOut - numIn) buffer

/-- Lines 195-234 of `processBlock`: clear the excess output channels, then
filter the input channels with the coefficients stored in the processor.
Returns the processor with the new histories and the buffer as the call
leaves it. -/
def processAudio (h : Host α) (s : AudioPluginAudioProcessor α) (buffer : AudioBuffer α) :
    Option (AudioPluginAudioProcessor α × AudioBuffer α) :=
  (clearExcess h.totalNumInputChannels h.totalNumOutputChannels buffer).bind fun cleared =>
  (filterChannels s.filterB s.filterA h.totalNumInputChannels
      { xHistory := s.xHistory, yHistory := s.yHistory, buffer := cleared }).map fun st =>
  ({ s with xHistory := st.xHistory, yHistory := st.yHistory }, st.buffer)

/-- `processBlock` (lines 141-235): refresh the coefficients, then process the
audio. -/
def processBlock (tan : α → α) (pi : α) (h : Host α) (s : AudioPluginAudioProcessor α)
    (buffer : AudioBuffer α) : Option (AudioPluginAudioProcessor α × AudioBuffer α) :=
  processAudio h (refreshCoefficients tan pi h s) buffer

/-! ## Reference definitions for the properties -/

/-- The variant of the refresh that recomputes on every block: lines 165-186
without the `if` of line 164. -/
def recomputeAlways (tan : α → α) (pi : α) (h : Host α)
    (s : AudioPluginAudioProcessor α) : AudioPluginAudioProcessor α :=
  let c := computeCoefficients tan pi h s
  { s with
    filterB := c.1
    filterA := c.2
    prevCutoff := h.cutoffFreq
    prevQ := h.Q
    prevFilterType := h.filterType }

/-- The variant of `processBlock` that recomputes the coefficients on every
block. -/
def processBlockAlways (tan : α → α) (pi : α) (h : Host α) (s : AudioPluginAudioProcessor α)
    (buffer : AudioBuffer α) : Option (AudioPluginAudioProcessor α × AudioBuffer α) :=
  processAudio h (recomputeAlways tan pi h s) buffer

/-- A host calling a block function on one block after another.  Returns the
final processor and, for every block, the coefficient set after the block
and the block as the call leaves it. -/
def runBlocks (step : AudioPluginAudioProcessor α → AudioBuffer α →
      Option (AudioPluginAudioProcessor α × AudioBuffer α)) :
    AudioPluginAudioProcessor α → List (AudioBuffer α) →
      Option (AudioPluginAudioProcessor α × List (Coeff3 α × Coeff3 α × AudioBuffer α))
  | s, [] => some (s, [])
  | s, buffer :: rest =>
    (step s buffer).bind fun r =>
    (runBlocks step r.1 rest).map fun q => (q.1, (r.1.filterB, r.1.filterA, r.2) :: q.2)

/-- The sequence `x[-2], x[-1], x[0], x[1], ...` of a channel: its stored
history (`h1` the most recent) followed by the samples of the block.
Position `j` holds `x[j - 2]`. -/
def extendedSeq (h1 h2 : FloatVal α) (xs : List (FloatVal α)) (j : Nat) : FloatVal α :=
  (h2 :: h1 :: xs).getD j (fin 0)

/-- The result of the sample loop on channel `i`, read off the histories and
the buffer as they are before the channel loop starts. -/
def channelResult (filterB filterA : Coeff3 α) (st : LoopState α) (i : Nat) :
    Option (List (FloatVal α) × Hist2 α × Hist2 α) :=
  match st.buffer[i]?, st.xHistory[i]?, st.yHistory[i]? with
  | some channelData, some xh, some yh =>
    some (sampleLoop filterB filterA xh.1 xh.2 yh.1 yh.2 channelData)
  | _, _, _ => none

/-- The row that `processBlock` leaves in channel `i` of the buffer, given the
coefficients it filters with and the histories and buffer it starts from: the
filtered samples for an input channel, zeros for an excess output channel,
the old row for any further channel. -/
def blockRow (h : Host α) (filterB filterA : Coeff3 α) (st : LoopState α) (i : Nat) :
    Option (List (FloatVal α)) :=
  if i < h.totalNumInputChannels then
    (channelResult filterB filterA st i).map (fun r => r.1)
  else if i < h.totalNumOutputChannels then
    st.buffer[i]?.map (fun row => List.replicate row.length (fin 0))
  else st.buffer[i]?

/-- The buffer and the history vectors are large enough for the channel counts
of the host: what the C++ code assumes when it indexes them. -/
def WellSized (h : Host α) (s : AudioPluginAudioProcessor α) (buffer : AudioBuffer α) : Prop :=
  h.totalNumInputChannels ≤ buffer.length ∧ h.totalNumOutputChannels ≤ buffer.length ∧
  h.totalNumInputChannels ≤ s.xHistory.length ∧ h.totalNumInputChannels ≤ s.yHistory.length

/-- The LowPass coefficient set as the design document words it:
`K = tan(ωc / 2)` with `ωc = 2π·cutoffHz / sampleRate`, `norm = 1 / (1 + K/Q + K²)`,
`b0 = K²·norm`, `b1 = 2K²·norm`, `b2 = K²·norm`, `a0 = 1`, `a1 = 2(K² - 1)·norm`,
`a2 = (1 - K/Q + K²)·norm`. -/
def lowPassDesign (tan : α → α) (pi : α) (cutoffHz resonanceQ sampleRate : α) :
    Coeff3 α × Coeff3 α :=
  let ωc := fin 2 * fin pi * fin cutoffHz / fin sampleRate
  let K := FloatVal.map tan (ωc / fin 2)
  let norm := fin 1 / (fin 1 + K / fin resonanceQ + K * K)
  ((K * K * norm, fin 2 * K * K * norm, K * K * norm),
   (fin 1, fin 2 * (K * K - fin 1) * norm, (fin 1 - K / fin resonanceQ + K * K) * norm))

/-! ## The coefficient computation in `float` arithmetic

The definitions above read `float` operations as exact.  The ones below round
every operation to the nearest `float` (IEEE-754 binary32, ties to even, one
rounding per operation, no fused multiply-add), which is what decides whether
the stored coefficients are those of a stable filter. -/

/-- Scale `N / D` by powers of two until `2^23 ≤ N / D < 2^24`.  Returns the
scaled numerator and denominator and the exponent `k` with
`N / D = (n / d) * 2^k` for the `n`, `d` and `k = 0` it starts from. -/
def scaleToMantissa : Nat → Nat → Nat → Int → Nat × Nat × Int
  | 0, N, D, k => (N, D, k)
  | fuel + 1, N, D, k =>
    if N < D * 2 ^ 23 then scaleToMantissa fuel (2 * N) D (k + 1)
    else if D * 2 ^ 24 ≤ N then scaleToMantissa fuel N (2 * D) (k - 1)
    else (N, D, k)

/-- Round a rational to the nearest number with a 24-bit significand, ties to
even: the `float` nearest to it.  The exponent range of `float` is not
modelled, so this is the `float` result for values of magnitude between
`2^-126` and `2^128`. -/
def roundF32 (q : ℚ) : ℚ :=
  if q = 0 then 0 else
    let s := scaleToMantissa 512 q.num.natAbs q.den 0
    let t := s.1 / s.2.1
    let r := s.1 % s.2.1
    let m := if s.2.1 < 2 * r ∨ (2 * r = s.2.1 ∧ t % 2 = 1) then t + 1 else t
    let v : ℚ :=
      if 0 ≤ s.2.2 then (m : ℚ) / ((2 ^ s.2.2.toNat : ℕ) : ℚ)
      else (m : ℚ) * ((2 ^ (-s.2.2).toNat : ℕ) : ℚ)
    if q < 0 then -v else v

/-- A `float` whose operations round: the value is a number, or `undef` after
a division by zero. -/
structure F32 where
  val : FloatVal ℚ
  deriving DecidableEq

namespace F32

/-- The `float` with the value `q`, for a `q` that is one (a literal such as
`2.0f`, or a value read from a parameter). -/
def lit (q : ℚ) : F32 := ⟨fin q⟩

instance : Add F32 := ⟨fun a b => ⟨FloatVal.map roundF32 (a.val + b.val)⟩⟩
instance : Sub F32 := ⟨fun a b => ⟨FloatVal.map roundF32 (a.val - b.val)⟩⟩
instance : Mul F32 := ⟨fun a b => ⟨FloatVal.map roundF32 (a.val * b.val)⟩⟩
instance : Div F32 := ⟨fun a b => ⟨FloatVal.map roundF32 (a.val / b.val)⟩⟩
instance : Neg F32 := ⟨fun a => ⟨-a.val⟩⟩

end F32

/-- The constant `static_cast<float>(M_PI)`: the `float` nearest to `π`,
`3.14159274101257324`, which is larger than `π`. -/
def piF32 : F32 := F32.lit (13176795 / 4194304)

/-- Line 165 and the argument of `std::tan` on line 166, in `float`
arithmetic: `omegaC / 2.0f`. -/
def tanArgumentF32 (h : Host ℚ) : F32 :=
  let omegaC := F32.lit 2 * piF32 * F32.lit h.cutoffFreq / F32.lit h.sampleRate
  omegaC / F32.lit 2

/-- A `float[3]` coefficient array in `float` arithmetic. -/
abbrev Coeff3F32 := F32 × F32 × F32

/-- Lines 167-183 in `float` arithmetic, from the value `K` that `std::tan`
returned on line 166 and the arrays `filterB`, `filterA` as they are; with a
filter type other than 0 and 1 neither branch runs and the arrays keep their
values. -/
def computeCoefficientsF32 (K : F32) (h : Host ℚ) (filterB filterA : Coeff3F32) :
    Coeff3F32 × Coeff3F32 :=
  let Q := F32.lit h.Q
  if h.filterType = 0 then
    let norm := F32.lit 1 / (Q + K + Q * K * K)
    ((K * norm, F32.lit 0, -K * norm),
     (F32.lit 1, (-F32.lit 2 * Q + F32.lit 2 * Q * K * K) * norm, (Q - K + Q * K * K) * norm))
  else if h.filterType = 1 then
    let norm := F32.lit 1 / (F32.lit 1 + K / Q + K * K)
    ((K * K * norm, F32.lit 2 * K * K * norm, K * K * norm),
     (F32.lit 1, F32.lit 2 * (K * K - F32.lit 1) * norm, (F32.lit 1 - K / Q + K * K) * norm))
  else
    (filterB, filterA)

/-- The zero-initialised coefficient array of PluginProcessor.h, lines 55-56. -/
def zeroCoeff3F32 : Coeff3F32 := (F32.lit 0, F32.lit 0, F32.lit 0)

/-- The host of the unstable case: sample rate 22050, cutoff 11024 (below the
Nyquist frequency 11025), `Q` the `float` nearest to 0.55, BandPass. -/
def nearNyquistHost : Host ℚ :=
  { totalNumInputChannels := 2, totalNumOutputChannels := 2, sampleRate := 22050,
    cutoffFreq := 11024, Q := 9227469 / 16777216, filterType := 0 }

/-! ## Sample inputs -/

/-- A host with one input and two output channels at 44.1 kHz, cutoff 1000,
`Q = 1`, LowPass. -/
def sampleHost : Host ℚ :=
  { totalNumInputChannels := 1, totalNumOutputChannels := 2, sampleRate := 44100,
    cutoffFreq := 1000, Q := 1, filterType := 1 }

/-- A processor in use: one channel with a non-zero history, BandPass recorded
as the last filter type, and the coefficients of some earlier block. -/
def sampleProcessor : AudioPluginAudioProcessor ℚ :=
  { xHistory := [(fin 1, fin 2)], yHistory := [(fin 3, fin 4)],
    prevCutoff := 500, prevQ := 2, prevFilterType := 0,
    filterB := (fin 1, fin 0, fin (-1)), filterA := (fin 1, fin 0, fin 0) }

/-- A block of three samples on two channels: a unit impulse, and other
content in the second channel. -/
def sampleBuffer : AudioBuffer ℚ :=
  [[fin 1, fin 0, fin 0], [fin 7, fin 8, fin 9]]

/-! ## Arithmetic of `FloatVal` -/

namespace FloatVal

@[simp] theorem fin_add_fin (a b : α) : (fin a + fin b : FloatVal α) = fin (a + b) := rfl

@[simp] theorem fin_sub_fin (a b : α) : (fin a - fin b : FloatVal α) = fin (a - b) := rfl

@[simp] theorem fin_mul_fin (a b : α) : (fin a * fin b : FloatVal α) = fin (a * b) := rfl

@[simp] theorem neg_fin (a : α) : (-fin a : FloatVal α) = fin (-a) := rfl

@[simp] theorem map_fin {β : Type} (f : β → β) (a : β) : FloatVal.map f (fin a) = fin (f a) :=
  rfl

theorem fin_div_fin (a b : α) :
    (fin a / fin b : FloatVal α) = if b = 0 then undef else fin (a / b) := rfl

@[simp] theorem fin_div_fin_of_ne (a : α) {b : α} (hb : b ≠ 0) :
    (fin a / fin b : FloatVal α) = fin (a / b) := by
  rw [fin_div_fin, if_neg hb]

/-- Dividing by zero gives no number, whatever the numerator. -/
@[simp] theorem div_fin_zero (x : FloatVal α) : x / fin (0 : α) = undef := by
  cases x with
  | fin a => rw [fin_div_fin, if_pos rfl]
  | undef => rfl

end FloatVal

/-! ## The sample loop -/

theorem sampleLoop_cons (filterB filterA : Coeff3 α) (x1 x2 y1 y2 x0 : FloatVal α)
    (rest : List (FloatVal α)) :
    sampleLoop filterB filterA x1 x2 y1 y2 (x0 :: rest) =
      ((filterB.1 * x0 + filterB.2.1 * x1 + filterB.2.2 * x2 -
          filterA.2.1 * y1 - filterA.2.2 * y2) / filterA.1 ::
        (sampleLoop filterB filterA x0 x1
          ((filterB.1 * x0 + filterB.2.1 * x1 + filterB.2.2 * x2 -
            filterA.2.1 * y1 - filterA.2.2 * y2) / filterA.1) y1 rest).1,
       (sampleLoop filterB filterA x0 x1
          ((filterB.1 * x0 + filterB.2.1 * x1 + filterB.2.2 * x2 -
            filterA.2.1 * y1 - filterA.2.2 * y2) / filterA.1) y1 rest).2) :=
  rfl

/-- The sample loop writes one sample per sample read. -/
theorem sampleLoop_length (filterB filterA : Coeff3 α) (xs : List (FloatVal α)) :
    ∀ x1 x2 y1 y2 : FloatVal α,
      (sampleLoop filterB filterA x1 x2 y1 y2 xs).1.length = xs.length := by
  induction xs with
  | nil => intro x1 x2 y1 y2; rfl
  | cons x0 rest ih =>
    intro x1 x2 y1 y2
    rw [sampleLoop_cons]
    simp [ih]

/-- Running the sample loop over `xs ++ ys` is running it over `xs` and then,
from the history that leaves, over `ys`. -/
theorem sampleLoop_append (filterB filterA : Coeff3 α) (xs ys : List (FloatVal α)) :
    ∀ x1 x2 y1 y2 : FloatVal α,
      sampleLoop filterB filterA x1 x2 y1 y2 (xs ++ ys) =
        ((sampleLoop filterB filterA x1 x2 y1 y2 xs).1 ++
          (sampleLoop filterB filterA
            (sampleLoop filterB filterA x1 x2 y1 y2 xs).2.1.1
            (sampleLoop filterB filterA x1 x2 y1 y2 xs).2.1.2
            (sampleLoop filterB filterA x1 x2 y1 y2 xs).2.2.1
            (sampleLoop filterB filterA x1 x2 y1 y2 xs).2.2.2 ys).1,
         (sampleLoop filterB filterA
            (sampleLoop filterB filterA x1 x2 y1 y2 xs).2.1.1
            (sampleLoop filterB filterA x1 x2 y1 y2 xs).2.1.2
            (sampleLoop filterB filterA x1 x2 y1 y2 xs).2.2.1
            (sampleLoop filterB filterA x1 x2 y1 y2 xs).2.2.2 ys).2) := by
  induction xs with
  | nil => intro x1 x2 y1 y2; rfl
  | cons x0 rest ih =>
    intro x1 x2 y1 y2
    rw [List.cons_append, sampleLoop_cons, sampleLoop_cons, ih]
    rfl

theorem extendedSeq_zero (h1 h2 : FloatVal α) (xs : List (FloatVal α)) :
    extendedSeq h1 h2 xs 0 = h2 := rfl

theorem extendedSeq_one (h1 h2 : FloatVal α) (xs : List (FloatVal α)) :
    extendedSeq h1 h2 xs 1 = h1 := rfl

theorem extendedSeq_cons_succ (h1 h2 x0 : FloatVal α) (rest : List (FloatVal α)) (j : Nat) :
    extendedSeq h1 h2 (x0 :: rest) (j + 1) = extendedSeq x0 h1 rest j := by
  simp [extendedSeq]

/-- The sample loop against the direct-form-I difference equation: with `X`
the extended input sequence and `Y` the extended sequence of the samples
written, every sample written obeys the equation, and the history that leaves
the loop is the last two entries of `X` and of `Y`. -/
theorem sampleLoop_directForm (filterB filterA : Coeff3 α) (xs : List (FloatVal α)) :
    ∀ x1 x2 y1 y2 : FloatVal α,
      (∀ k, k < xs.length →
        extendedSeq y1 y2 (sampleLoop filterB filterA x1 x2 y1 y2 xs).1 (k + 2) =
          (filterB.1 * extendedSeq x1 x2 xs (k + 2) + filterB.2.1 * extendedSeq x1 x2 xs (k + 1) +
            filterB.2.2 * extendedSeq x1 x2 xs k -
            filterA.2.1 * extendedSeq y1 y2 (sampleLoop filterB filterA x1 x2 y1 y2 xs).1 (k + 1) -
            filterA.2.2 * extendedSeq y1 y2 (sampleLoop filterB filterA x1 x2 y1 y2 xs).1 k) /
          filterA.1) ∧
      (sampleLoop filterB filterA x1 x2 y1 y2 xs).2.1 =
        (extendedSeq x1 x2 xs (xs.length + 1), extendedSeq x1 x2 xs xs.length) ∧
      (sampleLoop filterB filterA x1 x2 y1 y2 xs).2.2 =
        (extendedSeq y1 y2 (sampleLoop filterB filterA x1 x2 y1 y2 xs).1 (xs.length + 1),
         extendedSeq y1 y2 (sampleLoop filterB filterA x1 x2 y1 y2 xs).1 xs.length) := by
  induction xs with
  | nil =>
    intro x1 x2 y1 y2
    refine ⟨fun k hk => absurd hk (Nat.not_lt_zero k), rfl, rfl⟩
  | cons x0 rest ih =>
    intro x1 x2 y1 y2
    obtain ⟨ih1, ih2, ih3⟩ := ih x0 x1
      ((filterB.1 * x0 + filterB.2.1 * x1 + filterB.2.2 * x2 -
        filterA.2.1 * y1 - filterA.2.2 * y2) / filterA.1) y1
    rw [sampleLoop_cons]
    refine ⟨?_, ?_, ?_⟩
    · intro k hk
      cases k with
      | zero => rfl
      | succ k =>
        have hk' : k < rest.length := by simpa using hk
        simp only [extendedSeq_cons_succ]
        exact ih1 k hk'
    · simp only [List.length_cons, extendedSeq_cons_succ]
      exact ih2
    · simp only [List.length_cons, extendedSeq_cons_succ]
      exact ih3

/-- With `a0 = 0` every sample written is the result of a division by zero. -/
theorem sampleLoop_div_zero (filterB filterA : Coeff3 α) (ha0 : filterA.1 = fin 0)
    (xs : List (FloatVal α)) :
    ∀ x1 x2 y1 y2 : FloatVal α,
      (sampleLoop filterB filterA x1 x2 y1 y2 xs).1 = List.replicate xs.length undef := by
  induction xs with
  | nil => intro x1 x2 y1 y2; rfl
  | cons x0 rest ih =>
    intro x1 x2 y1 y2
    rw [sampleLoop_cons]
    simp only [ih, ha0, div_fin_zero, List.length_cons, List.replicate_succ]

theorem forRange_succ {σ : Type} (body : σ → Nat → Option σ) (lo k : Nat) (st : σ) :
    forRange body lo (k + 1) st = (forRange body lo k st).bind (fun st' => body st' (lo + k)) :=
  rfl

/-- The clearing loop is defined when the buffer has the channels it clears;
it replaces exactly the rows `lo ≤ i < lo + k` by zeros. -/
theorem forRange_clearChannel (lo k : Nat) (buffer : AudioBuffer α)
    (hlen : lo + k ≤ buffer.length) :
    ∃ b, forRange clearChannel lo k buffer = some b ∧ b.length = buffer.length ∧
      ∀ i, b[i]? = if lo ≤ i ∧ i < lo + k
        then buffer[i]?.map (fun row => List.replicate row.length (fin (0 : α)))
        else buffer[i]? := by
  induction k with
  | zero =>
    refine ⟨buffer, rfl, rfl, fun i => ?_⟩
    have : ¬ (lo ≤ i ∧ i < lo) := by omega
    simp [this]
  | succ k ih =>
    obtain ⟨b, hb, hl, hget⟩ := ih (by omega)
    have hk : lo + k < buffer.length := by omega
    have hbk : b[lo + k]? = some buffer[lo + k] := by
      rw [hget]
      have : ¬ (lo ≤ lo + k ∧ lo + k < lo + k) := by omega
      simp [this, hk]
    refine ⟨b.set (lo + k) (List.replicate (buffer[lo + k]).length (fin 0)), ?_, ?_, ?_⟩
    · rw [forRange_succ, hb]
      simp [clearChannel, hbk]
    · simp [hl]
    · intro i
      rw [List.getElem?_set]
      by_cases hi : lo + k = i
      · subst hi
        have h1 : lo ≤ lo + k ∧ lo + k < lo + (k + 1) := by omega
        simp [hl, hk, h1]
      · rw [if_neg hi, hget]
        by_cases h2 : lo ≤ i ∧ i < lo + k
        · have h3 : lo ≤ i ∧ i < lo + (k + 1) := by omega
          simp [h2, h3]
        · have h3 : ¬ (lo ≤ i ∧ i < lo + (k + 1)) := by omega
          simp [h2, h3]

/-- The channel loop is defined when the buffer and both history vectors have
the first `n` channels; it leaves in channel `i < n` what the sample loop
gives on that channel's samples and history, and touches nothing else. -/
theorem forRange_processChannel (filterB filterA : Coeff3 α) (n : Nat) (st : LoopState α)
    (hb : n ≤ st.buffer.length) (hx : n ≤ st.xHistory.length) (hy : n ≤ st.yHistory.length) :
    ∃ st', forRange (processChannel filterB filterA) 0 n st = some st' ∧
      st'.buffer.length = st.buffer.length ∧
      st'.xHistory.length = st.xHistory.length ∧
      st'.yHistory.length = st.yHistory.length ∧
      (∀ i, st'.buffer[i]? = if i < n
        then (channelResult filterB filterA st i).map (fun r => r.1) else st.buffer[i]?) ∧
      (∀ i, st'.xHistory[i]? = if i < n
        then (channelResult filterB filterA st i).map (fun r => r.2.1) else st.xHistory[i]?) ∧
      (∀ i, st'.yHistory[i]? = if i < n
        then (channelResult filterB filterA st i).map (fun r => r.2.2) else st.yHistory[i]?) := by
  induction n with
  | zero => exact ⟨st, rfl, rfl, rfl, rfl, by simp, by simp, by simp⟩
  | succ k ih =>
    obtain ⟨t, ht, hlb, hlx, hly, hgb, hgx, hgy⟩ := ih (by omega) (by omega) (by omega)
    have hkb : k < st.buffer.length := by omega
    have hkx : k < st.xHistory.length := by omega
    have hky : k < st.yHistory.length := by omega
    have e1 : t.buffer[k]? = some st.buffer[k] := by rw [hgb]; simp [hkb]
    have e2 : t.xHistory[k]? = some st.xHistory[k] := by rw [hgx]; simp [hkx]
    have e3 : t.yHistory[k]? = some st.yHistory[k] := by rw [hgy]; simp [hky]
    have hres : channelResult filterB filterA st k =
        some (sampleLoop filterB filterA (st.xHistory[k]).1 (st.xHistory[k]).2
          (st.yHistory[k]).1 (st.yHistory[k]).2 st.buffer[k]) := by
      simp [channelResult, hkb, hkx, hky]
    refine ⟨{ xHistory := t.xHistory.set k (sampleLoop filterB filterA (st.xHistory[k]).1
                  (st.xHistory[k]).2 (st.yHistory[k]).1 (st.yHistory[k]).2 st.buffer[k]).2.1
              yHistory := t.yHistory.set k (sampleLoop filterB filterA (st.xHistory[k]).1
                  (st.xHistory[k]).2 (st.yHistory[k]).1 (st.yHistory[k]).2 st.buffer[k]).2.2
              buffer := t.buffer.set k (sampleLoop filterB filterA (st.xHistory[k]).1
                  (st.xHistory[k]).2 (st.yHistory[k]).1 (st.yHistory[k]).2 st.buffer[k]).1 },
      ?_, ?_, ?_, ?_, ?_, ?_, ?_⟩
    · rw [forRange_succ, ht]
      simp only [Option.some_bind, Nat.zero_add, processChannel, e1, e2, e3]
    · simp [hlb]
    · simp [hlx]
    · simp [hly]
    · intro i
      simp only [List.getElem?_set]
      by_cases hi : k = i
      · subst hi
        simp [hlb, hkb, hres]
      · rw [if_neg hi, hgb]
        by_cases h2 : i < k
        · simp [h2, Nat.lt_succ_of_lt h2]
        · have h3 : ¬ i < k + 1 := by omega
          simp [h2, h3]
    · intro i
      simp only [List.getElem?_set]
      by_cases hi : k = i
      · subst hi
        simp [hlx, hkx, hres]
      · rw [if_neg hi, hgx]
        by_cases h2 : i < k
        · simp [h2, Nat.lt_succ_of_lt h2]
        · have h3 : ¬ i < k + 1 := by omega
          simp [h2, h3]
    · intro i
      simp only [List.getElem?_set]
      by_cases hi : k = i
      · subst hi
        simp [hly, hky, hres]
      · rw [if_neg hi, hgy]
        by_cases h2 : i < k
        · simp [h2, Nat.lt_succ_of_lt h2]
        · have h3 : ¬ i < k + 1 := by omega
          simp [h2, h3]

@[simp] theorem refreshCoefficients_xHistory (tan : α → α) (pi : α) (h : Host α)
    (s : AudioPluginAudioProcessor α) :
    (refreshCoefficients tan pi h s).xHistory = s.xHistory := by
  unfold refreshCoefficients; split <;> rfl

@[simp] theorem refreshCoefficients_yHistory (tan : α → α) (pi : α) (h : Host α)
    (s : AudioPluginAudioProcessor α) :
    (refreshCoefficients tan pi h s).yHistory = s.yHistory := by
  unfold refreshCoefficients; split <;> rfl

theorem refreshCoefficients_of_changed (tan : α → α) (pi : α) (h : Host α)
    (s : AudioPluginAudioProcessor α) (hc : paramsChanged h s = true) :
    refreshCoefficients tan pi h s =
      { s with
        filterB := (computeCoefficients tan pi h s).1
        filterA := (computeCoefficients tan pi h s).2
        prevCutoff := h.cutoffFreq
        prevQ := h.Q
        prevFilterType := h.filterType } := by
  simp [refreshCoefficients, hc]

theorem refreshCoefficients_of_not_changed (tan : α → α) (pi : α) (h : Host α)
    (s : AudioPluginAudioProcessor α) (hc : paramsChanged h s = false) :
    refreshCoefficients tan pi h s = s := by
  simp [refreshCoefficients, hc]

/-- The pre-warped tangent is a number when the sample rate is not zero. -/
theorem prewarp_eq (tan : α → α) (pi : α) (h : Host α) (hsr : h.sampleRate ≠ 0) :
    prewarp tan pi h = fin (tan (2 * pi * h.cutoffFreq / h.sampleRate / 2)) := by
  have h2 : (2 : α) ≠ 0 := two_ne_zero
  simp [prewarp, hsr, h2]

/-- The BandPass branch, when its divisions are defined. -/
theorem computeCoefficients_bandPass (tan : α → α) (pi : α) (h : Host α)
    (s : AudioPluginAudioProcessor α) (K : α) (hft : h.filterType = 0)
    (hK : prewarp tan pi h = fin K) (hden : h.Q + K + h.Q * K * K ≠ 0) :
    computeCoefficients tan pi h s =
      ((fin (K * (1 / (h.Q + K + h.Q * K * K))), fin 0,
        fin (-K * (1 / (h.Q + K + h.Q * K * K)))),
       (fin 1, fin ((-2 * h.Q + 2 * h.Q * K * K) * (1 / (h.Q + K + h.Q * K * K))),
        fin ((h.Q - K + h.Q * K * K) * (1 / (h.Q + K + h.Q * K * K))))) := by
  simp [computeCoefficients, hft, hK, hden]

/-- The LowPass branch, when its divisions are defined. -/
theorem computeCoefficients_lowPass (tan : α → α) (pi : α) (h : Host α)
    (s : AudioPluginAudioProcessor α) (K : α) (hft : h.filterType = 1)
    (hK : prewarp tan pi h = fin K) (hQ : h.Q ≠ 0) (hden : 1 + K / h.Q + K * K ≠ 0) :
    computeCoefficients tan pi h s =
      ((fin (K * K * (1 / (1 + K / h.Q + K * K))), fin (2 * K * K * (1 / (1 + K / h.Q + K * K))),
        fin (K * K * (1 / (1 + K / h.Q + K * K)))),
       (fin 1, fin (2 * (K * K - 1) * (1 / (1 + K / h.Q + K * K))),
        fin ((1 - K / h.Q + K * K) * (1 / (1 + K / h.Q + K * K))))) := by
  simp [computeCoefficients, hft, hK, hQ, hden]

/-- With BandPass or LowPass the computed coefficients do not depend on the
processor they overwrite. -/
theorem computeCoefficients_indep (tan : α → α) (pi : α) (h : Host α)
    (s t : AudioPluginAudioProcessor α) (hft : h.filterType = 0 ∨ h.filterType = 1) :
    computeCoefficients tan pi h s = computeCoefficients tan pi h t := by
  rcases hft with hft | hft <;> simp [computeCoefficients, hft]

/-- The Jury conditions put every root of `z^2 + a1 z + a2` inside the unit
circle. -/
theorem roots_inside_unit_circle (a1 a2 : ℝ) (h2 : |a2| < 1) (h1 : |a1| < 1 + a2) (z : ℂ)
    (hz : z ^ 2 + (a1 : ℂ) * z + (a2 : ℂ) = 0) : Complex.abs z < 1 := by
  obtain ⟨h2l, h2u⟩ := abs_lt.mp h2
  obtain ⟨h1l, h1u⟩ := abs_lt.mp h1
  have hre := congrArg Complex.re hz
  have him := congrArg Complex.im hz
  simp [pow_two] at hre him
  have hsq : z.re * z.re + z.im * z.im < 1 := by
    by_cases hy : z.im = 0
    · rw [hy] at hre
      simp at hre
      rw [hy]
      by_contra hcon
      push_neg at hcon
      have hx : 1 ≤ z.re ∨ z.re ≤ -1 := by
        by_contra hne
        push_neg at hne
        nlinarith
      rcases hx with hx | hx
      · nlinarith
      · nlinarith
    · have ha1 : a1 = -(2 * z.re) := by
        have : z.im * (2 * z.re + a1) = 0 := by linarith
        rcases mul_eq_zero.mp this with h0 | h0
        · exact absurd h0 hy
        · linarith
      subst ha1
      nlinarith
  rw [Complex.abs_apply, Complex.normSq_apply]
  calc Real.sqrt (z.re * z.re + z.im * z.im) < Real.sqrt 1 :=
        Real.sqrt_lt_sqrt (by nlinarith [mul_self_nonneg z.re, mul_self_nonneg z.im]) hsq
    _ = 1 := Real.sqrt_one

/-- Two fractions over a positive denominator meet the Jury conditions when
their numerators do. -/
theorem jury_of_numerators (D N1 N2 : α) (hD : 0 < D) (h2u : N2 < D) (h2l : -D < N2)
    (h1u : N1 < D + N2) (h1l : -(D + N2) < N1) :
    |N2 * (1 / D)| < 1 ∧ |N1 * (1 / D)| < 1 + N2 * (1 / D) := by
  have hD' : D ≠ 0 := ne_of_gt hD
  have e : 1 + N2 * (1 / D) = (D + N2) / D := by field_simp
  rw [e, mul_one_div, mul_one_div, abs_lt, abs_lt]
  refine ⟨⟨?_, ?_⟩, ?_, ?_⟩
  · rw [lt_div_iff₀ hD]; linarith
  · rw [div_lt_iff₀ hD]; linarith
  · rw [← neg_div, div_lt_div_iff_of_pos_right hD]; exact h1l
  · rw [div_lt_div_iff_of_pos_right hD]; exact h1u

/-- Both branches give `a0 = 1` and feedback coefficients that meet the Jury
conditions, for a positive pre-warped tangent and a positive `Q`. -/
theorem computeCoefficients_jury (tan : α → α) (pi : α) (h : Host α)
    (s : AudioPluginAudioProcessor α) (K : α) (hK : prewarp tan pi h = fin K) (hKpos : 0 < K)
    (hQ : 0 < h.Q) (hft : h.filterType = 0 ∨ h.filterType = 1) :
    ∃ a1 a2 : α, (computeCoefficients tan pi h s).2 = (fin 1, fin a1, fin a2) ∧
      |a2| < 1 ∧ |a1| < 1 + a2 := by
  have hKK : 0 < K * K := mul_pos hKpos hKpos
  have hQKK : 0 < h.Q * K * K := by
    rw [mul_assoc]; exact mul_pos hQ hKK
  rcases hft with hft | hft
  · have hD : 0 < h.Q + K + h.Q * K * K := by linarith
    rw [computeCoefficients_bandPass tan pi h s K hft hK (ne_of_gt hD)]
    refine ⟨_, _, rfl, ?_⟩
    apply jury_of_numerators _ _ _ hD <;> linarith
  · have hKQ : 0 < K / h.Q := div_pos hKpos hQ
    have hD : 0 < 1 + K / h.Q + K * K := by linarith
    rw [computeCoefficients_lowPass tan pi h s K hft hK (ne_of_gt hQ) (ne_of_gt hD)]
    refine ⟨_, _, rfl, ?_⟩
    apply jury_of_numerators _ _ _ hD <;> linarith

/-- Below the Nyquist frequency the pre-warped tangent, over the reals with
the real tangent and the real `π`, is a positive number. -/
theorem prewarp_pos (h : Host ℝ) (hsr : 0 < h.sampleRate) (hc0 : 0 < h.cutoffFreq)
    (hc1 : h.cutoffFreq < h.sampleRate / 2) :
    ∃ K : ℝ, prewarp Real.tan Real.pi h = fin K ∧ 0 < K := by
  refine ⟨_, prewarp_eq Real.tan Real.pi h (ne_of_gt hsr), ?_⟩
  have hx : 2 * Real.pi * h.cutoffFreq / h.sampleRate / 2 =
      Real.pi * (h.cutoffFreq / h.sampleRate) := by
    field_simp; ring
  rw [hx]
  have hr0 : 0 < h.cutoffFreq / h.sampleRate := div_pos hc0 hsr
  have hr1 : h.cutoffFreq / h.sampleRate < 1 / 2 := by
    rw [div_lt_iff₀ hsr]; linarith
  apply Real.tan_pos_of_pos_of_lt_pi_div_two
  · exact mul_pos Real.pi_pos hr0
  · have := mul_lt_mul_of_pos_left hr1 Real.pi_pos
    linarith

/-- After `prepareToPlay` the change check fires for BandPass and for LowPass:
the filter-type sentinel is `-1`. -/
theorem paramsChanged_prepareToPlay (h h0 : Host α) (s0 : AudioPluginAudioProcessor α)
    (hft : h.filterType = 0 ∨ h.filterType = 1) :
    paramsChanged h (prepareToPlay h0 s0) = true := by
  rcases hft with hft | hft <;> simp [paramsChanged, prepareToPlay, hft]

/-- The change check in the words of the comparison it makes. -/
theorem paramsChanged_iff (h : Host α) (s : AudioPluginAudioProcessor α) :
    paramsChanged h s = true ↔
      (|h.cutoffFreq - s.prevCutoff| > 1 / 10000 ∨ |h.Q - s.prevQ| > 1 / 10000 ∨
        h.filterType ≠ s.prevFilterType) := by
  simp [paramsChanged, epsilon, or_assoc]

/-- `prepareToPlay` makes the processor well-sized for every buffer that has
the channels of the host. -/
theorem wellSized_prepareToPlay (h : Host α) (s : AudioPluginAudioProcessor α)
    (buffer : AudioBuffer α) (hin : h.totalNumInputChannels ≤ buffer.length)
    (hout : h.totalNumOutputChannels ≤ buffer.length) :
    WellSized h (prepareToPlay h s) buffer := by
  simp [WellSized, prepareToPlay, hin, hout]

/-- With filter type LowPass the source computes the LowPass design. -/
theorem computeCoefficients_eq_lowPassDesign (tan : α → α) (pi : α) (h : Host α)
    (s : AudioPluginAudioProcessor α) (hft : h.filterType = 1) :
    computeCoefficients tan pi h s = lowPassDesign tan pi h.cutoffFreq h.Q h.sampleRate := by
  simp [computeCoefficients, lowPassDesign, prewarp, hft]

/-- Inside the buffer and both history vectors the sample loop has a result. -/
theorem channelResult_of_lt (filterB filterA : Coeff3 α) (st : LoopState α) (i : Nat)
    (hb : i < st.buffer.length) (hx : i < st.xHistory.length) (hy : i < st.yHistory.length) :
    ∃ channelData xh yh, st.buffer[i]? = some channelData ∧ st.xHistory[i]? = some xh ∧
      st.yHistory[i]? = some yh ∧
      channelResult filterB filterA st i =
        some (sampleLoop filterB filterA xh.1 xh.2 yh.1 yh.2 channelData) := by
  refine ⟨st.buffer[i], st.xHistory[i], st.yHistory[i], ?_, ?_, ?_, ?_⟩
  · exact List.getElem?_eq_getElem hb
  · exact List.getElem?_eq_getElem hx
  · exact List.getElem?_eq_getElem hy
  · simp [channelResult, hb, hx, hy]

/-- With a filter type that is neither BandPass nor LowPass no branch runs. -/
theorem computeCoefficients_other (tan : α → α) (pi : α) (h : Host α)
    (s : AudioPluginAudioProcessor α) (h0 : h.filterType ≠ 0) (h1 : h.filterType ≠ 1) :
    computeCoefficients tan pi h s = (s.filterB, s.filterA) := by
  simp [computeCoefficients, h0, h1]

/-- The change check does not fire against its own record of the parameters. -/
theorem paramsChanged_recorded (h : Host α) (s : AudioPluginAudioProcessor α)
    (hc : s.prevCutoff = h.cutoffFreq) (hq : s.prevQ = h.Q)
    (ht : s.prevFilterType = h.filterType) : paramsChanged h s = false := by
  simp [paramsChanged, epsilon, hc, hq, ht]

/-- The change check reads the previous-parameter record only. -/
theorem paramsChanged_congr (h : Host α) (s t : AudioPluginAudioProcessor α)
    (hc : t.prevCutoff = s.prevCutoff) (hq : t.prevQ = s.prevQ)
    (ht : t.prevFilterType = s.prevFilterType) : paramsChanged h t = paramsChanged h s := by
  simp [paramsChanged, hc, hq, ht]

/-- After a refresh the change check is quiet for the same parameters, on every
processor that carries the record the refresh left. -/
theorem paramsChanged_after_refresh (tan : α → α) (pi : α) (h : Host α)
    (s t : AudioPluginAudioProcessor α)
    (hc : t.prevCutoff = (refreshCoefficients tan pi h s).prevCutoff)
    (hq : t.prevQ = (refreshCoefficients tan pi h s).prevQ)
    (ht : t.prevFilterType = (refreshCoefficients tan pi h s).prevFilterType) :
    paramsChanged h t = false := by
  cases hch : paramsChanged h s with
  | true =>
    rw [refreshCoefficients_of_changed tan pi h s hch] at hc hq ht
    exact paramsChanged_recorded h t hc hq ht
  | false =>
    rw [refreshCoefficients_of_not_changed tan pi h s hch] at hc hq ht
    rw [paramsChanged_congr h s t hc hq ht, hch]

/-- A second refresh with the same inputs changes nothing. -/
theorem refreshCoefficients_idem (tan : α → α) (pi : α) (h : Host α)
    (s : AudioPluginAudioProcessor α) :
    refreshCoefficients tan pi h (refreshCoefficients tan pi h s) =
      refreshCoefficients tan pi h s :=
  refreshCoefficients_of_not_changed tan pi h _
    (paramsChanged_after_refresh tan pi h s _ rfl rfl rfl)

/-- The audio part of the block keeps the coefficients and the
previous-parameter record. -/
theorem processAudio_fields (h : Host α) (s s' : AudioPluginAudioProcessor α)
    (buffer b : AudioBuffer α) (hrun : processAudio h s buffer = some (s', b)) :
    s'.filterB = s.filterB ∧ s'.filterA = s.filterA ∧ s'.prevCutoff = s.prevCutoff ∧
      s'.prevQ = s.prevQ ∧ s'.prevFilterType = s.prevFilterType := by
  unfold processAudio at hrun
  cases hcl : clearExcess h.totalNumInputChannels h.totalNumOutputChannels buffer with
  | none => rw [hcl] at hrun; simp at hrun
  | some cl =>
    rw [hcl] at hrun
    simp only [Option.some_bind] at hrun
    cases hf : filterChannels s.filterB s.filterA h.totalNumInputChannels
        { xHistory := s.xHistory, yHistory := s.yHistory, buffer := cl } with
    | none => rw [hf] at hrun; simp at hrun
    | some st =>
      rw [hf] at hrun
      simp only [Option.map_some', Option.some.injEq, Prod.mk.injEq] at hrun
      obtain ⟨rfl, -⟩ := hrun
      exact ⟨rfl, rfl, rfl, rfl, rfl⟩

/-- The audio part of the block reads the histories and the coefficients only:
two processors that agree on them get the same buffer and the same new
histories. -/
theorem processAudio_congr (h : Host α) (s t : AudioPluginAudioProcessor α)
    (buffer : AudioBuffer α) (hx : t.xHistory = s.xHistory) (hy : t.yHistory = s.yHistory)
    (hB : t.filterB = s.filterB) (hA : t.filterA = s.filterA) :
    processAudio h t buffer =
      (processAudio h s buffer).map
        (fun r => ({ t with xHistory := r.1.xHistory, yHistory := r.1.yHistory }, r.2)) := by
  unfold processAudio
  rw [hx, hy, hB, hA]
  cases clearExcess h.totalNumInputChannels h.totalNumOutputChannels buffer with
  | none => rfl
  | some cl =>
    simp only [Option.some_bind]
    cases filterChannels s.filterB s.filterA h.totalNumInputChannels
        { xHistory := s.xHistory, yHistory := s.yHistory, buffer := cl } with
    | none => rfl
    | some st => rfl

/-- The refresh and the unconditional recomputation store the same
coefficients on processors that hold the same ones, provided that, for
BandPass and LowPass, the processor of the refresh is either due for a
recomputation or already holds the coefficients of these parameters. -/
theorem refresh_eq_recompute_coefficients (tan : α → α) (pi : α) (h : Host α)
    (s t : AudioPluginAudioProcessor α) (hB : s.filterB = t.filterB) (hA : s.filterA = t.filterA)
    (hP : (h.filterType = 0 ∨ h.filterType = 1) →
      paramsChanged h s = true ∨ (s.filterB, s.filterA) = computeCoefficients tan pi h s) :
    (refreshCoefficients tan pi h s).filterB = (recomputeAlways tan pi h t).filterB ∧
    (refreshCoefficients tan pi h s).filterA = (recomputeAlways tan pi h t).filterA := by
  have hrec : ((recomputeAlways tan pi h t).filterB, (recomputeAlways tan pi h t).filterA) =
      computeCoefficients tan pi h t := rfl
  have key : ((refreshCoefficients tan pi h s).filterB, (refreshCoefficients tan pi h s).filterA) =
      computeCoefficients tan pi h t := by
    by_cases hft : h.filterType = 0 ∨ h.filterType = 1
    · rw [computeCoefficients_indep tan pi h t s hft]
      cases hch : paramsChanged h s with
      | true => rw [refreshCoefficients_of_changed tan pi h s hch]
      | false =>
        rw [refreshCoefficients_of_not_changed tan pi h s hch]
        rcases hP hft with h1 | h1
        · rw [hch] at h1; exact absurd h1 (by decide)
        · exact h1
    · have h0 : h.filterType ≠ 0 := fun e => hft (Or.inl e)
      have h1 : h.filterType ≠ 1 := fun e => hft (Or.inr e)
      rw [computeCoefficients_other tan pi h t h0 h1, ← hB, ← hA]
      cases hch : paramsChanged h s with
      | true =>
        rw [refreshCoefficients_of_changed tan pi h s hch,
          computeCoefficients_other tan pi h s h0 h1]
      | false => rw [refreshCoefficients_of_not_changed tan pi h s hch]
  rw [← hrec] at key
  exact ⟨congrArg Prod.fst key, congrArg Prod.snd key⟩

/-- A processor that is due for a recomputation, or holds the coefficients of
the parameters already, holds them after the refresh. -/
theorem refresh_holds_coefficients (tan : α → α) (pi : α) (h : Host α)
    (s : AudioPluginAudioProcessor α)
    (hP : paramsChanged h s = true ∨ (s.filterB, s.filterA) = computeCoefficients tan pi h s) :
    ((refreshCoefficients tan pi h s).filterB, (refreshCoefficients tan pi h s).filterA) =
      computeCoefficients tan pi h s := by
  cases hch : paramsChanged h s with
  | true => rw [refreshCoefficients_of_changed tan pi h s hch]
  | false =>
    rw [refreshCoefficients_of_not_changed tan pi h s hch]
    rcases hP with h1 | h1
    · rw [hch] at h1; exact absurd h1 (by decide)
    · exact h1

/-- Block after block, `processBlock` and the variant that always recomputes
leave the same coefficients after every block and the same buffers, from
processors that agree on histories and coefficients. -/
theorem runBlocks_skip_eq_always (tan : α → α) (pi : α) (h : Host α)
    (blocks : List (AudioBuffer α)) :
    ∀ s t : AudioPluginAudioProcessor α, s.xHistory = t.xHistory → s.yHistory = t.yHistory →
      s.filterB = t.filterB → s.filterA = t.filterA →
      ((h.filterType = 0 ∨ h.filterType = 1) →
        paramsChanged h s = true ∨ (s.filterB, s.filterA) = computeCoefficients tan pi h s) →
      (runBlocks (processBlock tan pi h) s blocks).map (fun r => r.2) =
        (runBlocks (processBlockAlways tan pi h) t blocks).map (fun r => r.2) := by
  induction blocks with
  | nil => intro s t _ _ _ _ _; rfl
  | cons buffer rest ih =>
    intro s t hx hy hB hA hP
    obtain ⟨cB, cA⟩ := refresh_eq_recompute_coefficients tan pi h s t hB hA hP
    have hcong := processAudio_congr h (refreshCoefficients tan pi h s)
      (recomputeAlways tan pi h t) buffer
      (by rw [refreshCoefficients_xHistory]; exact hx.symm)
      (by rw [refreshCoefficients_yHistory]; exact hy.symm) cB.symm cA.symm
    simp only [runBlocks, processBlock, processBlockAlways]
    rw [hcong]
    cases hpa : processAudio h (refreshCoefficients tan pi h s) buffer with
    | none => rfl
    | some r =>
      obtain ⟨s2, o⟩ := r
      obtain ⟨f1, f2, -, -, -⟩ := processAudio_fields h _ s2 buffer o hpa
      simp only [Option.map_some', Option.some_bind]
      have hP2 : (h.filterType = 0 ∨ h.filterType = 1) →
          paramsChanged h s2 = true ∨ (s2.filterB, s2.filterA) = computeCoefficients tan pi h s2 := by
        intro hft
        right
        rw [f1, f2, refresh_holds_coefficients tan pi h s (hP hft)]
        exact computeCoefficients_indep tan pi h s s2 hft
      have hrec := ih s2
        { recomputeAlways tan pi h t with xHistory := s2.xHistory, yHistory := s2.yHistory }
        rfl rfl (f1.trans cB) (f2.trans cA) hP2
      cases hr1 : runBlocks (processBlock tan pi h) s2 rest with
      | none =>
        rw [hr1] at hrec
        cases hr2 : runBlocks (processBlockAlways tan pi h)
            { recomputeAlways tan pi h t with xHistory := s2.xHistory, yHistory := s2.yHistory }
            rest with
        | none => rfl
        | some q2 => rw [hr2] at hrec; simp at hrec
      | some q1 =>
        rw [hr1] at hrec
        cases hr2 : runBlocks (processBlockAlways tan pi h)
            { recomputeAlways tan pi h t with xHistory := s2.xHistory, yHistory := s2.yHistory }
            rest with
        | none => rw [hr2] at hrec; simp at hrec
        | some q2 =>
          rw [hr2] at hrec
          simp only [Option.map_some', Option.some.injEq] at hrec
          simp only [Option.map_some', Option.some.injEq, List.cons.injEq, Prod.mk.injEq,
            and_true, true_and]
          exact ⟨⟨f1.trans cB, f2.trans cA⟩, hrec⟩

/-! ## The whole block -/

/-- On a well-sized buffer `processBlock` returns, and its result is the
refreshed processor with the histories of the channel loop, and the buffer
whose rows are `blockRow`. -/
theorem processBlock_spec (tan : α → α) (pi : α) (h : Host α)
    (s : AudioPluginAudioProcessor α) (buffer : AudioBuffer α) (hw : WellSized h s buffer) :
    ∃ s' b, processBlock tan pi h s buffer = some (s', b) ∧
      s'.filterB = (refreshCoefficients tan pi h s).filterB ∧
      s'.filterA = (refreshCoefficients tan pi h s).filterA ∧
      s'.prevCutoff = (refreshCoefficients tan pi h s).prevCutoff ∧
      s'.prevQ = (refreshCoefficients tan pi h s).prevQ ∧
      s'.prevFilterType = (refreshCoefficients tan pi h s).prevFilterType ∧
      b.length = buffer.length ∧
      s'.xHistory.length = s.xHistory.length ∧
      s'.yHistory.length = s.yHistory.length ∧
      (∀ i, b[i]? = blockRow h (refreshCoefficients tan pi h s).filterB
        (refreshCoefficients tan pi h s).filterA
        { xHistory := s.xHistory, yHistory := s.yHistory, buffer := buffer } i) ∧
      (∀ i, s'.xHistory[i]? = if i < h.totalNumInputChannels
        then (channelResult (refreshCoefficients tan pi h s).filterB
          (refreshCoefficients tan pi h s).filterA
          { xHistory := s.xHistory, yHistory := s.yHistory, buffer := buffer } i).map
            (fun r => r.2.1)
        else s.xHistory[i]?) ∧
      (∀ i, s'.yHistory[i]? = if i < h.totalNumInputChannels
        then (channelResult (refreshCoefficients tan pi h s).filterB
          (refreshCoefficients tan pi h s).filterA
          { xHistory := s.xHistory, yHistory := s.yHistory, buffer := buffer } i).map
            (fun r => r.2.2)
        else s.yHistory[i]?) := by
  obtain ⟨hb1, hb2, hx, hy⟩ := hw
  obtain ⟨cl, hcl, hcll, hclg⟩ := forRange_clearChannel h.totalNumInputChannels
    (h.totalNumOutputChannels - h.totalNumInputChannels) buffer (by omega)
  obtain ⟨st, hst, hlb, hlx, hly, hgb, hgx, hgy⟩ := forRange_processChannel
    (refreshCoefficients tan pi h s).filterB (refreshCoefficients tan pi h s).filterA
    h.totalNumInputChannels
    { xHistory := s.xHistory, yHistory := s.yHistory, buffer := cl }
    (by simp only [hcll]; exact hb1) hx hy
  have hres : ∀ i, i < h.totalNumInputChannels →
      channelResult (refreshCoefficients tan pi h s).filterB
        (refreshCoefficients tan pi h s).filterA
        { xHistory := s.xHistory, yHistory := s.yHistory, buffer := cl } i =
      channelResult (refreshCoefficients tan pi h s).filterB
        (refreshCoefficients tan pi h s).filterA
        { xHistory := s.xHistory, yHistory := s.yHistory, buffer := buffer } i := by
    intro i hi
    have : ¬ (h.totalNumInputChannels ≤ i ∧
        i < h.totalNumInputChannels + (h.totalNumOutputChannels - h.totalNumInputChannels)) := by
      omega
    simp only [channelResult, hclg i, if_neg this]
  refine ⟨{ refreshCoefficients tan pi h s with xHistory := st.xHistory, yHistory := st.yHistory },
    st.buffer, ?_, rfl, rfl, rfl, rfl, rfl, ?_, hlx, hly, ?_, ?_, ?_⟩
  · simp only [processBlock, processAudio, clearExcess, hcl, Option.some_bind, filterChannels,
      refreshCoefficients_xHistory, refreshCoefficients_yHistory, hst, Option.map_some']
  · rw [hlb]; exact hcll
  · intro i
    rw [hgb i]
    unfold blockRow
    by_cases hi : i < h.totalNumInputChannels
    · simp only [if_pos hi, hres i hi]
    · simp only [if_neg hi, hclg i]
      by_cases ho : i < h.totalNumOutputChannels
      · have : h.totalNumInputChannels ≤ i ∧
          i < h.totalNumInputChannels + (h.totalNumOutputChannels - h.totalNumInputChannels) := by
          omega
        simp only [if_pos this, if_pos ho]
      · have : ¬ (h.totalNumInputChannels ≤ i ∧
          i < h.totalNumInputChannels + (h.totalNumOutputChannels - h.totalNumInputChannels)) := by
          omega
        simp only [if_neg this, if_neg ho]
  · intro i
    show st.xHistory[i]? = _
    rw [hgx i]
    by_cases hi : i < h.totalNumInputChannels
    · simp only [if_pos hi, hres i hi]
    · simp only [if_neg hi]
  · intro i
    show st.yHistory[i]? = _
    rw [hgy i]
    by_cases hi : i < h.totalNumInputChannels
    · simp only [if_pos hi, hres i hi]
    · simp only [if_neg hi]

/-! ## Stability -/

/-- The design in exact arithmetic.  Over the reals, with the real tangent and
the real `π`: for a sample rate `> 0`, a cutoff with
`0 < cutoff < sampleRate / 2`, a `Q > 0` and filter type BandPass (0) or
LowPass (1), the formulas of lines 165-183 give `K > 0`, `a0 = 1` and numbers
`a1`, `a2` with `|a2| < 1` and `|a1| < 1 + a2`, so that every complex root of
`z^2 + a1 z + a2` has modulus `< 1`.  This is a property of the formulas, not
of the `float` values that the code stores. -/
theorem exact_design_is_stable (h : Host ℝ) (s : AudioPluginAudioProcessor ℝ)
    (hsr : 0 < h.sampleRate) (hc0 : 0 < h.cutoffFreq) (hc1 : h.cutoffFreq < h.sampleRate / 2)
    (hQ : 0 < h.Q) (hft : h.filterType = 0 ∨ h.filterType = 1)
    (hch : paramsChanged h s = true) :
    ∃ K a1 a2 : ℝ, prewarp Real.tan Real.pi h = fin K ∧ 0 < K ∧
      (refreshCoefficients Real.tan Real.pi h s).filterA = (fin 1, fin a1, fin a2) ∧
      |a2| < 1 ∧ |a1| < 1 + a2 ∧
      ∀ z : ℂ, z ^ 2 + (a1 : ℂ) * z + (a2 : ℂ) = 0 → Complex.abs z < 1 := by
  obtain ⟨K, hK, hKpos⟩ := prewarp_pos h hsr hc0 hc1
  obtain ⟨a1, a2, ha, h2, h1⟩ := computeCoefficients_jury Real.tan Real.pi h s K hK hKpos hQ hft
  refine ⟨K, a1, a2, hK, hKpos, ?_, h2, h1, roots_inside_unit_circle a1 a2 h2 h1⟩
  rw [refreshCoefficients_of_changed Real.tan Real.pi h s hch]
  exact ha

/-- A quadratic `z^2 + a1 z + a2` with `1 + a2 < a1 ≤ 2` has a real root below
`-1`. -/
theorem root_below_minus_one (a1 a2 : ℝ) (h1 : 1 + a2 < a1) (h2 : a1 ≤ 2) :
    ∃ z : ℝ, z ^ 2 + a1 * z + a2 = 0 ∧ z < -1 := by
  have hd : 0 ≤ a1 ^ 2 - 4 * a2 := by nlinarith
  refine ⟨(-a1 - Real.sqrt (a1 ^ 2 - 4 * a2)) / 2, ?_, ?_⟩
  · have hs := Real.sq_sqrt hd
    nlinarith
  · have hlt : 2 - a1 < Real.sqrt (a1 ^ 2 - 4 * a2) := by
      apply Real.lt_sqrt_of_sq_lt
      nlinarith
    linarith

/-- C1 (stability): the code at the failing input.  The claim asks that the
coefficients `a1`, `a2` that `processBlock` computes put both poles strictly
inside the unit circle for every cutoff below the Nyquist frequency and every
`Q > 0`.  At sample rate 22050, cutoff 11024 and `Q` 0.55, BandPass, which
meets these conditions, the `float` computation gives `1.5706539…` as the
argument of `std::tan`, and from `K = 7021.91015625`, the `float` nearest to
its tangent, lines 168-174 store `a0 = 1`, `a1 = 8386437/4194304` and
`a2 = 8384265/8388608`.  For these `1 + a2 - |a1| = -2^-23`: the condition
`|a1| < 1 + a2` fails and `z^2 + a1 z + a2` has a real root below `-1`.  From
either neighbouring `float` value of `K` the stored `a1`, `a2` have
`|a1| = 1 + a2`, a root on the unit circle. -/
theorem float32_coefficients_unstable_near_nyquist :
    (0 < nearNyquistHost.sampleRate ∧ 0 < nearNyquistHost.cutoffFreq ∧
      nearNyquistHost.cutoffFreq < nearNyquistHost.sampleRate / 2 ∧ 0 < nearNyquistHost.Q ∧
      nearNyquistHost.filterType = 0) ∧
    tanArgumentF32 nearNyquistHost = F32.lit (823475 / 524288) ∧
    computeCoefficientsF32 (F32.lit (1797609 / 256)) nearNyquistHost zeroCoeff3F32
        zeroCoeff3F32 =
      ((F32.lit (8894457 / 34359738368), F32.lit 0, F32.lit (-8894457 / 34359738368)),
        (F32.lit 1, F32.lit (8386437 / 4194304), F32.lit (8384265 / 8388608))) ∧
    (1 : ℚ) + 8384265 / 8388608 - |(8386437 / 4194304 : ℚ)| = -(1 / 2 ^ 23) ∧
    ¬ (|(8386437 / 4194304 : ℝ)| < 1 + 8384265 / 8388608) ∧
    (∃ z : ℝ, z ^ 2 + (8386437 / 4194304) * z + 8384265 / 8388608 = 0 ∧ z < -1) ∧
    (computeCoefficientsF32 (F32.lit (14380871 / 2048)) nearNyquistHost zeroCoeff3F32
        zeroCoeff3F32).2 =
      (F32.lit 1, F32.lit (16772873 / 8388608), F32.lit (8384265 / 8388608)) ∧
    (computeCoefficientsF32 (F32.lit (14380873 / 2048)) nearNyquistHost zeroCoeff3F32
        zeroCoeff3F32).2 =
      (F32.lit 1, F32.lit (16772873 / 8388608), F32.lit (8384265 / 8388608)) ∧
    |(16772873 / 8388608 : ℚ)| = 1 + 8384265 / 8388608 := by
  refine ⟨?_, by decide!, by decide!, ?_, ?_, ?_, by decide!, by decide!, ?_⟩
  · simp only [nearNyquistHost]
    norm_num
  · rw [abs_of_pos (by norm_num)]
    norm_num
  · rw [abs_of_pos (by norm_num)]
    norm_num
  · exact root_below_minus_one _ _ (by norm_num) (by norm_num)
  · rw [abs_of_pos (by norm_num)]
    norm_num

/-! ## Change detection -/

/-- C8 (change-detection policy).  For a parameter snapshot with filter type
BandPass (0) or LowPass (1) and any cutoff and Q, those of the documented
ranges [20, 20000] and [0.1, 10] among them: when
`|cutoff - prevCutoff| > 1e-4` or `|Q - prevQ| > 1e-4` or
`filterType ≠ prevFilterType`, or the processor comes straight out of
`prepareToPlay`, the check of `processBlock` fires and the refresh stores the
computed coefficient set and records the snapshot as the previous parameters;
in every other case the check does not fire and the processor, with its
coefficient set and previous-parameter record, is left exactly as it was. -/
theorem change_detection_policy (tan : α → α) (pi : α) (h : Host α)
    (s : AudioPluginAudioProcessor α) (hft : h.filterType = 0 ∨ h.filterType = 1) :
    ((|h.cutoffFreq - s.prevCutoff| > 1 / 10000 ∨ |h.Q - s.prevQ| > 1 / 10000 ∨
        h.filterType ≠ s.prevFilterType ∨ ∃ h0 s0, s = prepareToPlay h0 s0) →
      paramsChanged h s = true ∧
      refreshCoefficients tan pi h s =
        { s with
          filterB := (computeCoefficients tan pi h s).1
          filterA := (computeCoefficients tan pi h s).2
          prevCutoff := h.cutoffFreq
          prevQ := h.Q
          prevFilterType := h.filterType }) ∧
    (¬ (|h.cutoffFreq - s.prevCutoff| > 1 / 10000 ∨ |h.Q - s.prevQ| > 1 / 10000 ∨
        h.filterType ≠ s.prevFilterType ∨ ∃ h0 s0, s = prepareToPlay h0 s0) →
      paramsChanged h s = false ∧ refreshCoefficients tan pi h s = s) := by
  constructor
  · intro hcond
    have hch : paramsChanged h s = true := by
      rcases hcond with h1 | h1 | h1 | ⟨h0, s0, rfl⟩
      · exact (paramsChanged_iff h s).mpr (Or.inl h1)
      · exact (paramsChanged_iff h s).mpr (Or.inr (Or.inl h1))
      · exact (paramsChanged_iff h s).mpr (Or.inr (Or.inr h1))
      · exact paramsChanged_prepareToPlay h h0 s0 hft
    exact ⟨hch, refreshCoefficients_of_changed tan pi h s hch⟩
  · intro hcond
    have hch : paramsChanged h s = false := by
      rw [← Bool.not_eq_true, paramsChanged_iff]
      intro h1
      apply hcond
      rcases h1 with h1 | h1 | h1
      · exact Or.inl h1
      · exact Or.inr (Or.inl h1)
      · exact Or.inr (Or.inr (Or.inl h1))
    exact ⟨hch, refreshCoefficients_of_not_changed tan pi h s hch⟩

/-- C8 on the first block after `prepareToPlay`, at 44.1 kHz with cutoff
1000, `Q = 1`, LowPass. -/
theorem change_detection_policy_witness :
    paramsChanged (⟨2, 2, 44100, 1000, 1, 1⟩ : Host ℚ)
      (prepareToPlay ⟨2, 2, 44100, 1000, 1, 1⟩ construct) = true ∧
    (refreshCoefficients id 3 (⟨2, 2, 44100, 1000, 1, 1⟩ : Host ℚ)
      (prepareToPlay ⟨2, 2, 44100, 1000, 1, 1⟩ construct)).prevCutoff = 1000 := by
  have key := (change_detection_policy id 3 (⟨2, 2, 44100, 1000, 1, 1⟩ : Host ℚ)
    (prepareToPlay ⟨2, 2, 44100, 1000, 1, 1⟩ construct) (Or.inr rfl)).1
    (Or.inr (Or.inr (Or.inr ⟨⟨2, 2, 44100, 1000, 1, 1⟩, construct, rfl⟩)))
  exact ⟨key.1, by rw [key.2]⟩

/-! ## Type switch and re-preparation -/

/-- C7 (type switch boundary).  When the last computed filter type is BandPass
(0) and the block carries filter type LowPass (1), with any cutoff, Q and
sample rate, `processBlock` stores the LowPass design computed from that
block's cutoff, Q and sample rate, and every input channel of that very block
is the sample loop run with those coefficients on the channel's samples and
history, whatever coefficients were stored before the call. -/
theorem type_switch_filters_with_lowPass (tan : α → α) (pi : α) (h : Host α)
    (s : AudioPluginAudioProcessor α) (buffer : AudioBuffer α)
    (hprev : s.prevFilterType = 0) (hft : h.filterType = 1) (hw : WellSized h s buffer) :
    ∃ s' b, processBlock tan pi h s buffer = some (s', b) ∧
      s'.filterB = (lowPassDesign tan pi h.cutoffFreq h.Q h.sampleRate).1 ∧
      s'.filterA = (lowPassDesign tan pi h.cutoffFreq h.Q h.sampleRate).2 ∧
      s'.prevFilterType = 1 ∧
      ∀ i, i < h.totalNumInputChannels →
        ∃ channelData xh yh, buffer[i]? = some channelData ∧ s.xHistory[i]? = some xh ∧
          s.yHistory[i]? = some yh ∧
          b[i]? = some (sampleLoop (lowPassDesign tan pi h.cutoffFreq h.Q h.sampleRate).1
            (lowPassDesign tan pi h.cutoffFreq h.Q h.sampleRate).2
            xh.1 xh.2 yh.1 yh.2 channelData).1 := by
  have hch : paramsChanged h s = true := by
    rw [paramsChanged_iff]
    right; right
    rw [hprev, hft]; decide
  have hB : (refreshCoefficients tan pi h s).filterB =
      (lowPassDesign tan pi h.cutoffFreq h.Q h.sampleRate).1 := by
    rw [refreshCoefficients_of_changed tan pi h s hch,
      computeCoefficients_eq_lowPassDesign tan pi h s hft]
  have hA : (refreshCoefficients tan pi h s).filterA =
      (lowPassDesign tan pi h.cutoffFreq h.Q h.sampleRate).2 := by
    rw [refreshCoefficients_of_changed tan pi h s hch,
      computeCoefficients_eq_lowPassDesign tan pi h s hft]
  have hT : (refreshCoefficients tan pi h s).prevFilterType = 1 := by
    rw [refreshCoefficients_of_changed tan pi h s hch]; exact hft
  obtain ⟨s', b, hrun, hfB, hfA, -, -, hpT, -, -, -, hrow, -, -⟩ :=
    processBlock_spec tan pi h s buffer hw
  refine ⟨s', b, hrun, hfB.trans hB, hfA.trans hA, hpT.trans hT, ?_⟩
  intro i hi
  obtain ⟨hw1, -, hw3, hw4⟩ := hw
  obtain ⟨channelData, xh, yh, e1, e2, e3, e4⟩ := channelResult_of_lt
    (lowPassDesign tan pi h.cutoffFreq h.Q h.sampleRate).1
    (lowPassDesign tan pi h.cutoffFreq h.Q h.sampleRate).2
    { xHistory := s.xHistory, yHistory := s.yHistory, buffer := buffer } i
    (lt_of_lt_of_le hi hw1) (lt_of_lt_of_le hi hw3) (lt_of_lt_of_le hi hw4)
  refine ⟨channelData, xh, yh, e1, e2, e3, ?_⟩
  rw [hrow i, hB, hA]
  simp only [blockRow, if_pos hi, e4, Option.map_some']

/-- C7 on the processor in use, whose last filter type is BandPass, with a
LowPass block. -/
theorem type_switch_filters_with_lowPass_witness :
    ∃ s' b, processBlock id 3 sampleHost sampleProcessor sampleBuffer = some (s', b) ∧
      s'.filterB = (lowPassDesign id 3 sampleHost.cutoffFreq sampleHost.Q
        sampleHost.sampleRate).1 ∧
      s'.filterA = (lowPassDesign id 3 sampleHost.cutoffFreq sampleHost.Q
        sampleHost.sampleRate).2 ∧
      s'.prevFilterType = 1 ∧
      ∀ i, i < sampleHost.totalNumInputChannels →
        ∃ channelData xh yh, sampleBuffer[i]? = some channelData ∧
          sampleProcessor.xHistory[i]? = some xh ∧ sampleProcessor.yHistory[i]? = some yh ∧
          b[i]? = some (sampleLoop
            (lowPassDesign id 3 sampleHost.cutoffFreq sampleHost.Q sampleHost.sampleRate).1
            (lowPassDesign id 3 sampleHost.cutoffFreq sampleHost.Q sampleHost.sampleRate).2
            xh.1 xh.2 yh.1 yh.2 channelData).1 :=
  type_switch_filters_with_lowPass id 3 sampleHost sampleProcessor sampleBuffer rfl rfl
    (by simp [WellSized, sampleHost, sampleProcessor, sampleBuffer])

/-- C3 (re-preparation resets state).  For every parameter snapshot with
filter type BandPass (0) or LowPass (1), every sample rate and every processor
`s`, whatever blocks it processed before: `prepareToPlay` followed by
`processBlock` on a block that has the channels of the host, the unit-impulse
block among them, returns, and returns exactly the processor (coefficients,
history, previous parameters) and the output block that a freshly constructed
and prepared processor returns for that block with the same parameters. -/
theorem reprepare_equals_fresh (tan : α → α) (pi : α) (h : Host α)
    (s : AudioPluginAudioProcessor α) (buffer : AudioBuffer α)
    (hft : h.filterType = 0 ∨ h.filterType = 1)
    (hin : h.totalNumInputChannels ≤ buffer.length)
    (hout : h.totalNumOutputChannels ≤ buffer.length) :
    ∃ r, processBlock tan pi h (prepareToPlay h s) buffer = some r ∧
      processBlock tan pi h (prepareToPlay h construct) buffer = some r := by
  have hch := paramsChanged_prepareToPlay h h s hft
  have hch0 := paramsChanged_prepareToPlay h h (construct : AudioPluginAudioProcessor α) hft
  have hst : refreshCoefficients tan pi h (prepareToPlay h s) =
      refreshCoefficients tan pi h (prepareToPlay h construct) := by
    rw [refreshCoefficients_of_changed tan pi h _ hch,
      refreshCoefficients_of_changed tan pi h _ hch0,
      computeCoefficients_indep tan pi h (prepareToPlay h s) (prepareToPlay h construct) hft]
    rfl
  obtain ⟨s', b, hrun, -⟩ := processBlock_spec tan pi h (prepareToPlay h s) buffer
    (wellSized_prepareToPlay h s buffer hin hout)
  refine ⟨(s', b), hrun, ?_⟩
  rw [← hrun]
  simp only [processBlock, hst]

/-- C3 on the processor in use, re-prepared and given the unit-impulse
block. -/
theorem reprepare_equals_fresh_witness :
    ∃ r, processBlock id 3 sampleHost (prepareToPlay sampleHost sampleProcessor) sampleBuffer =
        some r ∧
      processBlock id 3 sampleHost (prepareToPlay sampleHost construct) sampleBuffer = some r :=
  reprepare_equals_fresh id 3 sampleHost sampleProcessor sampleBuffer (Or.inr rfl)
    (by decide) (by decide)

/-! ## The filter loop -/

/-- C2 (direct-form-I reference).  For every coefficient set, every input
channel `c` and every block `xs` of that channel: with `X` the channel's
stored input history followed by `xs` and `Y` its stored output history
followed by the samples written, the filter loop writes at every index `k`
the value `y[k] = (b0*x[k] + b1*x[k-1] + b2*x[k-2] - a1*y[k-1] - a2*y[k-2]) / a0`,
and after the loop the stored history of the channel is `(x[n-1], x[n-2])`
and `(y[n-1], y[n-2])`; for an empty block it is unchanged. -/
theorem filter_loop_is_direct_form_I (filterB filterA : Coeff3 α) (numIn : Nat)
    (st : LoopState α) (hb : numIn ≤ st.buffer.length) (hx : numIn ≤ st.xHistory.length)
    (hy : numIn ≤ st.yHistory.length) :
    ∃ st', filterChannels filterB filterA numIn st = some st' ∧
      ∀ c, c < numIn → ∃ xs xh yh out,
        st.buffer[c]? = some xs ∧ st.xHistory[c]? = some xh ∧ st.yHistory[c]? = some yh ∧
        st'.buffer[c]? = some out ∧ out.length = xs.length ∧
        (∀ k, k < xs.length →
          extendedSeq yh.1 yh.2 out (k + 2) =
            (filterB.1 * extendedSeq xh.1 xh.2 xs (k + 2) +
              filterB.2.1 * extendedSeq xh.1 xh.2 xs (k + 1) +
              filterB.2.2 * extendedSeq xh.1 xh.2 xs k -
              filterA.2.1 * extendedSeq yh.1 yh.2 out (k + 1) -
              filterA.2.2 * extendedSeq yh.1 yh.2 out k) / filterA.1) ∧
        st'.xHistory[c]? = some (extendedSeq xh.1 xh.2 xs (xs.length + 1),
          extendedSeq xh.1 xh.2 xs xs.length) ∧
        st'.yHistory[c]? = some (extendedSeq yh.1 yh.2 out (xs.length + 1),
          extendedSeq yh.1 yh.2 out xs.length) ∧
        (xs = [] → st'.xHistory[c]? = some xh ∧ st'.yHistory[c]? = some yh) := by
  obtain ⟨st', hrun, -, -, -, hgb, hgx, hgy⟩ :=
    forRange_processChannel filterB filterA numIn st hb hx hy
  refine ⟨st', hrun, ?_⟩
  intro c hc
  obtain ⟨xs, xh, yh, e1, e2, e3, e4⟩ := channelResult_of_lt filterB filterA st c
    (lt_of_lt_of_le hc hb) (lt_of_lt_of_le hc hx) (lt_of_lt_of_le hc hy)
  obtain ⟨d1, d2, d3⟩ := sampleLoop_directForm filterB filterA xs xh.1 xh.2 yh.1 yh.2
  have o1 : st'.buffer[c]? = some (sampleLoop filterB filterA xh.1 xh.2 yh.1 yh.2 xs).1 := by
    rw [hgb c, if_pos hc, e4]; rfl
  have o2 : st'.xHistory[c]? =
      some (sampleLoop filterB filterA xh.1 xh.2 yh.1 yh.2 xs).2.1 := by
    rw [hgx c, if_pos hc, e4]; rfl
  have o3 : st'.yHistory[c]? =
      some (sampleLoop filterB filterA xh.1 xh.2 yh.1 yh.2 xs).2.2 := by
    rw [hgy c, if_pos hc, e4]; rfl
  refine ⟨xs, xh, yh, _, e1, e2, e3, o1, sampleLoop_length filterB filterA xs _ _ _ _, d1,
    ?_, ?_, ?_⟩
  · rw [o2, d2]
  · rw [o3, d3]
  · intro hnil
    subst hnil
    exact ⟨o2, o3⟩

/-- C2 on one channel with history `(1, 2)`, `(3, 4)` and the block `5, 6`. -/
theorem filter_loop_is_direct_form_I_witness :
    ∃ st', filterChannels (fin (1 : ℚ), fin 2, fin 3) (fin 2, fin 1, fin 1) 1
        { xHistory := [(fin 1, fin 2)], yHistory := [(fin 3, fin 4)],
          buffer := [[fin 5, fin 6]] } = some st' ∧
      ∀ c, c < 1 → ∃ xs xh yh out,
        [[fin (5 : ℚ), fin 6]][c]? = some xs ∧ [(fin (1 : ℚ), fin (2 : ℚ))][c]? = some xh ∧
        [(fin (3 : ℚ), fin (4 : ℚ))][c]? = some yh ∧
        st'.buffer[c]? = some out ∧ out.length = xs.length ∧
        (∀ k, k < xs.length →
          extendedSeq yh.1 yh.2 out (k + 2) =
            (fin 1 * extendedSeq xh.1 xh.2 xs (k + 2) +
              fin 2 * extendedSeq xh.1 xh.2 xs (k + 1) +
              fin 3 * extendedSeq xh.1 xh.2 xs k -
              fin 1 * extendedSeq yh.1 yh.2 out (k + 1) -
              fin 1 * extendedSeq yh.1 yh.2 out k) / fin 2) ∧
        st'.xHistory[c]? = some (extendedSeq xh.1 xh.2 xs (xs.length + 1),
          extendedSeq xh.1 xh.2 xs xs.length) ∧
        st'.yHistory[c]? = some (extendedSeq yh.1 yh.2 out (xs.length + 1),
          extendedSeq yh.1 yh.2 out xs.length) ∧
        (xs = [] → st'.xHistory[c]? = some xh ∧ st'.yHistory[c]? = some yh) :=
  filter_loop_is_direct_form_I (fin (1 : ℚ), fin 2, fin 3) (fin 2, fin 1, fin 1) 1
    { xHistory := [(fin 1, fin 2)], yHistory := [(fin 3, fin 4)], buffer := [[fin 5, fin 6]] }
    (by decide) (by decide) (by decide)

/-- C6 (zero-fill on channel excess).  For every block, `processBlock` leaves
zeros in every sample of every channel `i` with
`inputChannels ≤ i < outputChannels`, whatever the buffer held, and leaves the
history vectors at index `i` as they were: those channels do not go through
the filter. -/
theorem excess_channels_zero_filled (tan : α → α) (pi : α) (h : Host α)
    (s : AudioPluginAudioProcessor α) (buffer : AudioBuffer α) (hw : WellSized h s buffer) :
    ∃ s' b, processBlock tan pi h s buffer = some (s', b) ∧
      ∀ i, h.totalNumInputChannels ≤ i → i < h.totalNumOutputChannels →
        (∃ row, buffer[i]? = some row ∧ b[i]? = some (List.replicate row.length (fin 0))) ∧
        s'.xHistory[i]? = s.xHistory[i]? ∧ s'.yHistory[i]? = s.yHistory[i]? := by
  obtain ⟨s', b, hrun, -, -, -, -, -, -, -, -, hrow, hxh, hyh⟩ :=
    processBlock_spec tan pi h s buffer hw
  refine ⟨s', b, hrun, ?_⟩
  intro i hi ho
  have hni : ¬ i < h.totalNumInputChannels := Nat.not_lt.mpr hi
  obtain ⟨row, hr⟩ : ∃ row, buffer[i]? = some row :=
    ⟨_, List.getElem?_eq_getElem (lt_of_lt_of_le ho hw.2.1)⟩
  refine ⟨⟨row, hr, ?_⟩, ?_, ?_⟩
  · rw [hrow i]
    simp only [blockRow, if_neg hni, if_pos ho, hr, Option.map_some']
  · rw [hxh i, if_neg hni]
  · rw [hyh i, if_neg hni]

/-- C6 with one input and two output channels: the second channel, which
held `7, 8, 9`, is cleared. -/
theorem excess_channels_zero_filled_witness :
    ∃ s' b, processBlock id 3 sampleHost sampleProcessor sampleBuffer = some (s', b) ∧
      ∀ i, sampleHost.totalNumInputChannels ≤ i → i < sampleHost.totalNumOutputChannels →
        (∃ row, sampleBuffer[i]? = some row ∧
          b[i]? = some (List.replicate row.length (fin 0))) ∧
        s'.xHistory[i]? = sampleProcessor.xHistory[i]? ∧
        s'.yHistory[i]? = sampleProcessor.yHistory[i]? :=
  excess_channels_zero_filled id 3 sampleHost sampleProcessor sampleBuffer
    (by simp [WellSized, sampleHost, sampleProcessor, sampleBuffer])

/-! ## Unrecognised filter type -/

/-- C9 (unrecognised filter type), as amended.  On a freshly constructed and
prepared processor, for every parameter snapshot whose filter-type ordinal is
neither 0 nor 1 and every block, `processBlock` leaves all six coefficients
at their zero-initialised values, and every output sample of every input
channel is the result of dividing by `a0 = 0`: not a number, and not 0. -/
theorem unrecognized_type_divides_by_zero (tan : α → α) (pi : α) (h : Host α)
    (buffer : AudioBuffer α) (hft : h.filterType ≠ 0 ∧ h.filterType ≠ 1)
    (hin : h.totalNumInputChannels ≤ buffer.length)
    (hout : h.totalNumOutputChannels ≤ buffer.length) :
    ∃ s' b, processBlock tan pi h (prepareToPlay h construct) buffer = some (s', b) ∧
      s'.filterB = (fin 0, fin 0, fin 0) ∧ s'.filterA = (fin 0, fin 0, fin 0) ∧
      ∀ i, i < h.totalNumInputChannels →
        ∃ row, buffer[i]? = some row ∧ b[i]? = some (List.replicate row.length undef) := by
  have hB : (refreshCoefficients tan pi h (prepareToPlay h construct)).filterB =
      (fin 0, fin 0, fin 0) := by
    unfold refreshCoefficients
    split <;> simp [computeCoefficients, hft.1, hft.2, prepareToPlay, construct]
  have hA : (refreshCoefficients tan pi h (prepareToPlay h construct)).filterA =
      (fin 0, fin 0, fin 0) := by
    unfold refreshCoefficients
    split <;> simp [computeCoefficients, hft.1, hft.2, prepareToPlay, construct]
  have hw := wellSized_prepareToPlay h (construct : AudioPluginAudioProcessor α) buffer hin hout
  obtain ⟨s', b, hrun, hfB, hfA, -, -, -, -, -, -, hrow, -, -⟩ :=
    processBlock_spec tan pi h (prepareToPlay h construct) buffer hw
  refine ⟨s', b, hrun, hfB.trans hB, hfA.trans hA, ?_⟩
  intro i hi
  obtain ⟨row, xh, yh, e1, -, -, e4⟩ := channelResult_of_lt
    (fin 0, fin 0, fin 0) (fin 0, fin 0, fin 0)
    { xHistory := (prepareToPlay h (construct : AudioPluginAudioProcessor α)).xHistory,
      yHistory := (prepareToPlay h (construct : AudioPluginAudioProcessor α)).yHistory,
      buffer := buffer } i
    (lt_of_lt_of_le hi hw.1) (lt_of_lt_of_le hi hw.2.2.1) (lt_of_lt_of_le hi hw.2.2.2)
  refine ⟨row, e1, ?_⟩
  rw [hrow i, hB, hA]
  simp only [blockRow, if_pos hi, e4, Option.map_some']
  rw [sampleLoop_div_zero _ _ rfl]

/-- The amended C9 with filter-type ordinal 2 on one channel. -/
theorem unrecognized_type_divides_by_zero_witness :
    ∃ s' b, processBlock (id : ℚ → ℚ) 3 ⟨1, 1, 44100, 1000, 1, 2⟩
        (prepareToPlay ⟨1, 1, 44100, 1000, 1, 2⟩ construct) [[fin 1, fin 0]] = some (s', b) ∧
      s'.filterB = (fin 0, fin 0, fin 0) ∧ s'.filterA = (fin 0, fin 0, fin 0) ∧
      ∀ i, i < 1 →
        ∃ row, [[fin (1 : ℚ), fin 0]][i]? = some row ∧
          b[i]? = some (List.replicate row.length undef) :=
  unrecognized_type_divides_by_zero (id : ℚ → ℚ) 3 ⟨1, 1, 44100, 1000, 1, 2⟩ [[fin 1, fin 0]]
    (by decide) (by decide) (by decide)

/-- C9 as stated fails: with filter-type ordinal 2 the freshly constructed and
prepared processor turns the block `1, 0` into two results of a division by
zero, not into the all-zero block. -/
theorem unrecognized_type_output_not_zero :
    (processBlock (id : ℚ → ℚ) 3 ⟨1, 1, 44100, 1000, 1, 2⟩
        (prepareToPlay ⟨1, 1, 44100, 1000, 1, 2⟩ construct) [[fin 1, fin 0]]).map
        (fun r => r.2) = some [[undef, undef]] ∧
    (processBlock (id : ℚ → ℚ) 3 ⟨1, 1, 44100, 1000, 1, 2⟩
        (prepareToPlay ⟨1, 1, 44100, 1000, 1, 2⟩ construct) [[fin 1, fin 0]]).map
        (fun r => r.2) ≠ some [[fin 0, fin 0]] := by
  have e : (processBlock (id : ℚ → ℚ) 3 ⟨1, 1, 44100, 1000, 1, 2⟩
      (prepareToPlay ⟨1, 1, 44100, 1000, 1, 2⟩ construct) [[fin 1, fin 0]]).map
      (fun r => r.2) = some [[undef, undef]] := by
    simp [processBlock, processAudio, refreshCoefficients, paramsChanged, prepareToPlay,
      construct, computeCoefficients, clearExcess, forRange, filterChannels, processChannel,
      sampleLoop]
  refine ⟨e, ?_⟩
  rw [e]
  decide

/-! ## Change detection against unconditional recomputation -/

/-- On blocks that have the channels of the host, a well-sized processor runs
through all of them. -/
theorem runBlocks_returns (tan : α → α) (pi : α) (h : Host α) (blocks : List (AudioBuffer α))
    (hblocks : ∀ buffer ∈ blocks,
      h.totalNumInputChannels ≤ buffer.length ∧ h.totalNumOutputChannels ≤ buffer.length) :
    ∀ s : AudioPluginAudioProcessor α, h.totalNumInputChannels ≤ s.xHistory.length →
      h.totalNumInputChannels ≤ s.yHistory.length →
      ∃ sf trace, runBlocks (processBlock tan pi h) s blocks = some (sf, trace) ∧
        trace.length = blocks.length := by
  induction blocks with
  | nil => intro s _ _; exact ⟨s, [], rfl, rfl⟩
  | cons buffer rest ih =>
    intro s hx hy
    have hb := hblocks buffer (List.mem_cons_self _ _)
    obtain ⟨s', b, hrun, -, -, -, -, -, -, hlx, hly, -⟩ :=
      processBlock_spec tan pi h s buffer ⟨hb.1, hb.2, hx, hy⟩
    obtain ⟨sf, trace, hr, hl⟩ := ih (fun b hb => hblocks b (List.mem_cons_of_mem _ hb)) s'
      (by rw [hlx]; exact hx) (by rw [hly]; exact hy)
    refine ⟨sf, (s'.filterB, s'.filterA, b) :: trace, ?_, by simp [hl]⟩
    simp only [runBlocks, hrun, Option.some_bind, hr, Option.map_some']

/-- C4 (skipping is unobservable under identical parameters).  From every
processor that comes out of `prepareToPlay`, for every sample rate and
parameter snapshot and every sequence of blocks processed with them,
`processBlock` with its change check and the variant that recomputes the
coefficients on every block give the same coefficient set after every block
and the same output samples; on blocks that have the channels of the host
the run returns one entry per block; and a second refresh with the same
inputs leaves the processor, its coefficient set included, as the first
refresh left it. -/
theorem skipping_is_unobservable (tan : α → α) (pi : α) (h : Host α)
    (s0 : AudioPluginAudioProcessor α) (blocks : List (AudioBuffer α)) :
    (runBlocks (processBlock tan pi h) (prepareToPlay h s0) blocks).map (fun r => r.2) =
      (runBlocks (processBlockAlways tan pi h) (prepareToPlay h s0) blocks).map (fun r => r.2) ∧
    ((∀ buffer ∈ blocks,
        h.totalNumInputChannels ≤ buffer.length ∧ h.totalNumOutputChannels ≤ buffer.length) →
      ∃ sf trace, runBlocks (processBlock tan pi h) (prepareToPlay h s0) blocks =
          some (sf, trace) ∧ trace.length = blocks.length) ∧
    (∀ s : AudioPluginAudioProcessor α,
      refreshCoefficients tan pi h (refreshCoefficients tan pi h s) =
        refreshCoefficients tan pi h s) := by
  refine ⟨?_, ?_, refreshCoefficients_idem tan pi h⟩
  · apply runBlocks_skip_eq_always tan pi h blocks _ _ rfl rfl rfl rfl
    intro hft
    exact Or.inl (paramsChanged_prepareToPlay h h s0 hft)
  · intro hblocks
    exact runBlocks_returns tan pi h blocks hblocks (prepareToPlay h s0)
      (by simp [prepareToPlay]) (by simp [prepareToPlay])

/-- C4 on two identical blocks after re-preparing a processor in use. -/
theorem skipping_is_unobservable_witness :
    ∃ sf trace, runBlocks (processBlock id 3 sampleHost) (prepareToPlay sampleHost sampleProcessor)
        [sampleBuffer, sampleBuffer] = some (sf, trace) ∧ trace.length = 2 :=
  (skipping_is_unobservable id 3 sampleHost sampleProcessor [sampleBuffer, sampleBuffer]).2.1
    (by decide)

/-! ## Splitting a block -/

/-- Two processors with the same members are the same processor. -/
theorem processor_ext {β : Type} (s t : AudioPluginAudioProcessor β)
    (hx : s.xHistory = t.xHistory)
    (hy : s.yHistory = t.yHistory) (hc : s.prevCutoff = t.prevCutoff) (hq : s.prevQ = t.prevQ)
    (ht : s.prevFilterType = t.prevFilterType) (hB : s.filterB = t.filterB)
    (hA : s.filterA = t.filterA) : s = t := by
  cases s; cases t
  simp only [AudioPluginAudioProcessor.mk.injEq]
  exact ⟨hx, hy, hc, hq, ht, hB, hA⟩

/-- The sample loop of one channel over the row-wise concatenation of two
buffers is the loop over the first buffer followed by the loop over the
second, started from the history the first one left. -/
theorem channelResult_append (filterB filterA : Coeff3 α) (x y x' y' : List (Hist2 α))
    (b1 b2 : AudioBuffer α) (i : Nat) (r1 : List (FloatVal α) × Hist2 α × Hist2 α)
    (row2 : List (FloatVal α))
    (h1 : channelResult filterB filterA { xHistory := x, yHistory := y, buffer := b1 } i = some r1)
    (hx : x'[i]? = some r1.2.1) (hy : y'[i]? = some r1.2.2) (h2 : b2[i]? = some row2) :
    channelResult filterB filterA
        { xHistory := x, yHistory := y, buffer := List.zipWith (· ++ ·) b1 b2 } i =
      (channelResult filterB filterA { xHistory := x', yHistory := y', buffer := b2 } i).map
        (fun r2 => (r1.1 ++ r2.1, r2.2)) := by
  unfold channelResult at h1 ⊢
  simp only [List.getElem?_zipWith, hx, hy, h2]
  cases hb : b1[i]? with
  | none => simp [hb] at h1
  | some row1 =>
    cases hxe : x[i]? with
    | none => simp [hb, hxe] at h1
    | some xh =>
      cases hye : y[i]? with
      | none => simp [hb, hxe, hye] at h1
      | some yh =>
        simp only [hb, hxe, hye, Option.some.injEq] at h1
        subst h1
        simp only [Option.map_some', Option.some.injEq]
        rw [sampleLoop_append]

/-- C10 (block-split invariance).  For every processor with its histories
sized for the host, every parameter snapshot and sample rate, and every two
buffers `b1`, `b2` with the same channels: `processBlock` on `b1` and then on
`b2` returns, channel by channel, the samples that one `processBlock` call
returns on the rows of `b1` followed by the rows of `b2`, and ends in the same
processor, channel histories and coefficients included. -/
theorem block_split_invariance (tan : α → α) (pi : α) (h : Host α)
    (s : AudioPluginAudioProcessor α) (b1 b2 : AudioBuffer α) (hw : WellSized h s b1)
    (hlen : b2.length = b1.length) :
    ∃ s1 o1 s2 o2, processBlock tan pi h s b1 = some (s1, o1) ∧
      processBlock tan pi h s1 b2 = some (s2, o2) ∧
      processBlock tan pi h s (List.zipWith (· ++ ·) b1 b2) =
        some (s2, List.zipWith (· ++ ·) o1 o2) := by
  obtain ⟨hw1, hw2, hw3, hw4⟩ := hw
  obtain ⟨s1, o1, hrun1, fB1, fA1, fc1, fq1, ft1, lb1, lx1, ly1, row1, xh1, yh1⟩ :=
    processBlock_spec tan pi h s b1 ⟨hw1, hw2, hw3, hw4⟩
  have hw' : WellSized h s1 b2 :=
    ⟨by rw [hlen]; exact hw1, by rw [hlen]; exact hw2, by rw [lx1]; exact hw3,
      by rw [ly1]; exact hw4⟩
  obtain ⟨s2, o2, hrun2, fB2, fA2, fc2, fq2, ft2, lb2, lx2, ly2, row2, xh2, yh2⟩ :=
    processBlock_spec tan pi h s1 b2 hw'
  have hz : (List.zipWith (· ++ ·) b1 b2).length = b1.length := by simp [hlen]
  obtain ⟨s3, o3, hrun3, fB3, fA3, fc3, fq3, ft3, lb3, lx3, ly3, row3, xh3, yh3⟩ :=
    processBlock_spec tan pi h s (List.zipWith (· ++ ·) b1 b2)
      ⟨by rw [hz]; exact hw1, by rw [hz]; exact hw2, hw3, hw4⟩
  have hr1 : refreshCoefficients tan pi h s1 = s1 :=
    refreshCoefficients_of_not_changed tan pi h s1
      (paramsChanged_after_refresh tan pi h s s1 fc1 fq1 ft1)
  rw [hr1] at fB2 fA2 fc2 fq2 ft2 row2 xh2 yh2
  rw [fB1, fA1] at row2 xh2 yh2
  have hin : ∀ i, i < h.totalNumInputChannels → ∃ r1 r2,
      channelResult (refreshCoefficients tan pi h s).filterB
        (refreshCoefficients tan pi h s).filterA
        { xHistory := s.xHistory, yHistory := s.yHistory, buffer := b1 } i = some r1 ∧
      channelResult (refreshCoefficients tan pi h s).filterB
        (refreshCoefficients tan pi h s).filterA
        { xHistory := s1.xHistory, yHistory := s1.yHistory, buffer := b2 } i = some r2 ∧
      channelResult (refreshCoefficients tan pi h s).filterB
        (refreshCoefficients tan pi h s).filterA
        { xHistory := s.xHistory, yHistory := s.yHistory,
          buffer := List.zipWith (· ++ ·) b1 b2 } i = some (r1.1 ++ r2.1, r2.2) := by
    intro i hi
    obtain ⟨xs, xh, yh, -, -, -, e4⟩ := channelResult_of_lt
      (refreshCoefficients tan pi h s).filterB (refreshCoefficients tan pi h s).filterA
      { xHistory := s.xHistory, yHistory := s.yHistory, buffer := b1 } i
      (lt_of_lt_of_le hi hw1) (lt_of_lt_of_le hi hw3) (lt_of_lt_of_le hi hw4)
    obtain ⟨ys, xh', yh', d1, -, -, d4⟩ := channelResult_of_lt
      (refreshCoefficients tan pi h s).filterB (refreshCoefficients tan pi h s).filterA
      { xHistory := s1.xHistory, yHistory := s1.yHistory, buffer := b2 } i
      (lt_of_lt_of_le hi hw'.1) (lt_of_lt_of_le hi hw'.2.2.1) (lt_of_lt_of_le hi hw'.2.2.2)
    have hx : s1.xHistory[i]? =
        some (sampleLoop (refreshCoefficients tan pi h s).filterB
          (refreshCoefficients tan pi h s).filterA xh.1 xh.2 yh.1 yh.2 xs).2.1 := by
      rw [xh1 i, if_pos hi, e4]; rfl
    have hy : s1.yHistory[i]? =
        some (sampleLoop (refreshCoefficients tan pi h s).filterB
          (refreshCoefficients tan pi h s).filterA xh.1 xh.2 yh.1 yh.2 xs).2.2 := by
      rw [yh1 i, if_pos hi, e4]; rfl
    have happ := channelResult_append (refreshCoefficients tan pi h s).filterB
      (refreshCoefficients tan pi h s).filterA s.xHistory s.yHistory s1.xHistory s1.yHistory
      b1 b2 i _ ys e4 hx hy d1
    rw [d4] at happ
    exact ⟨_, _, e4, d4, happ⟩
  refine ⟨s1, o1, s2, o2, hrun1, hrun2, ?_⟩
  rw [hrun3]
  have hs : s3 = s2 := by
    apply processor_ext
    · apply List.ext_getElem?
      intro i
      rw [xh3 i, xh2 i]
      by_cases hi : i < h.totalNumInputChannels
      · obtain ⟨r1, r2, -, c2, c3⟩ := hin i hi
        simp only [if_pos hi, c2, c3, Option.map_some']
      · simp only [if_neg hi]
        rw [xh1 i, if_neg hi]
    · apply List.ext_getElem?
      intro i
      rw [yh3 i, yh2 i]
      by_cases hi : i < h.totalNumInputChannels
      · obtain ⟨r1, r2, -, c2, c3⟩ := hin i hi
        simp only [if_pos hi, c2, c3, Option.map_some']
      · simp only [if_neg hi]
        rw [yh1 i, if_neg hi]
    · rw [fc3, fc2, fc1]
    · rw [fq3, fq2, fq1]
    · rw [ft3, ft2, ft1]
    · rw [fB3, fB2, fB1]
    · rw [fA3, fA2, fA1]
  have ho : o3 = List.zipWith (· ++ ·) o1 o2 := by
    apply List.ext_getElem?
    intro i
    rw [row3 i, List.getElem?_zipWith, row1 i, row2 i]
    unfold blockRow
    by_cases hi : i < h.totalNumInputChannels
    · obtain ⟨r1, r2, c1, c2, c3⟩ := hin i hi
      simp only [if_pos hi, c1, c2, c3, Option.map_some']
    · simp only [if_neg hi]
      by_cases hout : i < h.totalNumOutputChannels
      · simp only [if_pos hout, List.getElem?_zipWith]
        cases b1[i]? with
        | none => rfl
        | some xs =>
          cases b2[i]? with
          | none => rfl
          | some ys =>
            simp only [Option.map_some', List.length_append, List.replicate_add]
      · simp only [if_neg hout, List.getElem?_zipWith]
  rw [hs, ho]

/-- C10 on the processor in use, with the sample buffer processed as two
blocks and as one block of twice the length. -/
theorem block_split_invariance_witness :
    ∃ s1 o1 s2 o2, processBlock id 3 sampleHost sampleProcessor sampleBuffer = some (s1, o1) ∧
      processBlock id 3 sampleHost s1 sampleBuffer = some (s2, o2) ∧
      processBlock id 3 sampleHost sampleProcessor
        (List.zipWith (· ++ ·) sampleBuffer sampleBuffer) =
        some (s2, List.zipWith (· ++ ·) o1 o2) :=
  block_split_invariance id 3 sampleHost sampleProcessor sampleBuffer sampleBuffer
    (by simp [WellSized, sampleHost, sampleProcessor, sampleBuffer]) rfl

end audio_plugin

